import Mathlib

/-!
Verification of the alignment/scoring core of the `ai-english-learning-server`
repository against its natural-language specification.

The development shallowly embeds the Python sources:
* `src/services/word_matching.py` (word mapper, letter marking),
* `src/services/pronunciation_service.py` (phoneme scorer, DTW-patched
  sequence aligner, evaluation orchestrator),
* the data records of `src/models.py` used by those services.

Modelling conventions:
* Python floats are modelled as real numbers `ℝ`; `round(x, 1)` is modelled as
  exact rounding to the nearest tenth (`round1`).
* External collaborators (the `dtwalign` DTW path search, the `jiwer` WER
  metric, the transcriber, the phonemizer and the LLM feedback generator) are
  parameters of the embedded functions, exactly as the source treats them as
  opaque callables.
* Python lists are Lean lists; a Python index read that can raise `IndexError`
  is modelled with `Option`/a guard when the source can actually reach it, and
  with `getD` at spots where an in-range invariant is separately proved.
-/

namespace AIEnglish

/-- Modelled from the spec: the repository calls `word_metrics.edit_distance_python`
(`src/services/word_matching.py` line 1, `src/services/pronunciation_service.py`
line 15) but `word_metrics.py` itself is not under `src/`.  Spec §4.1 specifies
it as the Levenshtein distance: "the minimum number of single-symbol insertions,
deletions, substitutions to transform `a` into `b`", with
`distance(a, "") = len(a)`. -/
def levenshteinAux : Nat → List Char → List Char → Nat
  | _, [], bs => bs.length
  | _, a :: as, [] => (a :: as).length
  | 0, _ :: _, _ :: _ => 0
  | fuel + 1, a :: as, b :: bs =>
    if a = b then levenshteinAux fuel as bs
    else 1 + min (levenshteinAux fuel as bs)
          (min (levenshteinAux fuel (a :: as) bs) (levenshteinAux fuel as (b :: bs)))

/-- The Levenshtein recursion, run with enough fuel that the exhaustion branch
of `levenshteinAux` (present only to keep the recursion structural, hence
kernel-evaluable) is never reached: every recursive call drops the total
length of the two lists by at least one. -/
def levenshtein (a b : List Char) : Nat := levenshteinAux (a.length + b.length) a b

/-- Modelled from the spec: `word_metrics.edit_distance_python` on strings
(character-level Levenshtein distance, spec §4.1). -/
def edit_distance_python (a b : String) : Nat := levenshtein a.toList b.toList

/-- `word_matching.offset_blank` (src/services/word_matching.py line 9). -/
def offset_blank : Nat := 1

/-- `word_matching.get_word_distance_matrix` (src/services/word_matching.py
lines 13–28): an `(len(words_estimated) + offset_blank) × len(words_real)`
matrix, row-major; row `i < len(words_estimated)` holds the edit distance of
candidate `i` to every reference word, and the final blank row (taken since
`offset_blank == 1`) holds each reference word's own length. -/
def get_word_distance_matrix (words_estimated words_real : List String) : List (List ℚ) :=
  (words_estimated.map fun e => words_real.map fun r => ((edit_distance_python e r : ℚ)))
    ++ [words_real.map fun r => ((r.length : ℚ))]

/-- `np.where(mapped_indices == word_idx)[0]` (src/services/word_matching.py
lines 36–37): the positions in `mappedIndices` holding the value `w`,
in increasing order. -/
def positionsOf (mappedIndices : List Nat) (w : Nat) : List Nat :=
  (List.range mappedIndices.length).filter fun p => mappedIndices.get? p == some w

/-- `WORD_NOT_FOUND_TOKEN` (src/services/word_matching.py line 33). -/
def WORD_NOT_FOUND_TOKEN : String := "-"

/-- The `len(position_of_real_word_indices) > 1` branch of
`get_resulting_string` (src/services/word_matching.py lines 55–71): scan the
positions, skipping those at or above `len(words_estimated)`, keeping the first
strict minimizer of the edit distance to the reference word.  State is
`(error, best_possible_combination, best_possible_idx)`, initially
`(99999, "", -1)`. -/
def bestStep (words_estimated : List String) (refWord : String)
    (st : Nat × String × Int) (p : Nat) : Nat × String × Int :=
  if words_estimated.length ≤ p then st
  else
    let e := edit_distance_python (words_estimated.getD p "") refWord
    if e < st.1 then (e, words_estimated.getD p "", (p : Int)) else st

/-- The whole `> 1` branch scan (src/services/word_matching.py lines 56–68). -/
def bestCandidateFold (words_estimated : List String) (refWord : String)
    (positions : List Nat) : Nat × String × Int :=
  positions.foldl (bestStep words_estimated refWord) (99999, "", -1)

/-- One loop iteration of `word_matching.get_resulting_string`
(src/services/word_matching.py lines 35–72), for reference word `w`: no grouped
path position gives `("-", -1)`; a single position gives that candidate,
guarded against the blank row (the Python guard `idx0 < 0` cannot fire, indices
being ℕ); several positions are resolved by `bestCandidateFold`. -/
def resultEntry (mappedIndices : List Nat) (words_estimated words_real : List String)
    (w : Nat) : String × Int :=
  match positionsOf mappedIndices w with
  | [] => (WORD_NOT_FOUND_TOKEN, (-1 : Int))
  | [p0] =>
      if words_estimated.length ≤ p0 then (WORD_NOT_FOUND_TOKEN, (-1 : Int))
      else (words_estimated.getD p0 "", (p0 : Int))
  | _ :: _ :: _ =>
      let st := bestCandidateFold words_estimated (words_real.getD w "") (positionsOf mappedIndices w)
      (st.2.1, st.2.2)

/-- `word_matching.get_resulting_string` (src/services/word_matching.py lines
30–74), assembled from `resultEntry`: the pair
`(mapped_words, mapped_words_indices)`. -/
def get_resulting_string (mappedIndices : List Nat) (words_estimated words_real : List String) :
    List String × List Int :=
  let entries := (List.range words_real.length).map (resultEntry mappedIndices words_estimated words_real)
  (entries.map Prod.fst, entries.map Prod.snd)

/-- `word_matching.get_best_mapped_words_dtw` (src/services/word_matching.py
lines 77–87).  The external `dtwalign.dtw_from_distance_matrix(...).path`
computation is the parameter `dtwPath`; `path[:-1, 0]` is `dropLast` followed by
first components. -/
def get_best_mapped_words_dtw (dtwPath : List (List ℚ) → List (Nat × Nat))
    (words_estimated words_real : List String) : List String × List Int :=
  let mappedIndices := ((dtwPath (get_word_distance_matrix words_estimated words_real)).dropLast).map Prod.fst
  get_resulting_string mappedIndices words_estimated words_real

/-- Python's `string.punctuation`. -/
def punctuationChars : List Char := "!\"#$%&'()*+,-./:;<=>?@[\\]^_`\x7b|\x7d~".toList

/-- `word_matching.getWhichLettersWereTranscribedCorrectly`
(src/services/word_matching.py lines 90–99).  The loop reads
`transcribed_word[idx]` for every `idx < len(real_word)`, so a transcribed word
shorter than the real word raises `IndexError` (modelled as `none`).  Otherwise
the result pairs the 0/1 marks with the mutated `transcribed_word` (its first
`len(real_word)` letters lowercased in place).  Lowercasing is modelled
ASCII-style by `Char.toLower`.  The embedding names the 0/1 marks list
(`letterMarks`), the mutated argument (`lowerMutated`) and the overall result
separately. -/
def letterMarks (real_word transcribed_word : List Char) : List Nat :=
  (List.range real_word.length).map fun idx =>
    if (real_word.getD idx ' ').toLower = (transcribed_word.getD idx ' ').toLower ∨
        (real_word.getD idx ' ').toLower ∈ punctuationChars
    then 1 else 0

/-- The in-place mutation of `transcribed_word` performed by the loop: its
first `len(real_word)` letters lowercased, the rest untouched. -/
def lowerMutated (real_word transcribed_word : List Char) : List Char :=
  (transcribed_word.take real_word.length).map Char.toLower
    ++ transcribed_word.drop real_word.length

/-- The result of `getWhichLettersWereTranscribedCorrectly`: `none` models the
`IndexError`, otherwise the marks are paired with the mutated argument. -/
def getWhichLettersWereTranscribedCorrectly (real_word transcribed_word : List Char) :
    Option (List Nat × List Char) :=
  if transcribed_word.length < real_word.length then none
  else some (letterMarks real_word transcribed_word, lowerMutated real_word transcribed_word)

/-- `models.PhonemeData` (src/models.py lines 99–101). -/
structure PhonemeData where
  word : String
  phoneme : String
deriving Inhabited, DecidableEq

/-- One entry of `learner_words_with_ts`: a transcriber word-timestamp dict.
The scorer only reads the optional `'start'` and `'end'` keys
(src/services/pronunciation_service.py line 78). -/
structure TimedWord where
  startTime : Option ℝ
  endTime : Option ℝ

instance : Inhabited TimedWord := ⟨⟨none, none⟩⟩

/-- Per-word accuracy record as constructed and consumed by
`PronunciationService.evaluate_pronunciation_phonemes_aligned`
(src/services/pronunciation_service.py lines 103–110 and 123–128) and as the
spec's §3 `WordAccuracy` describes it.  Note: `src/models.py` lines 104–106
declare only `word` and `accuracy_percentage`; the service nevertheless passes
and reads `pronunciation_score` and `rhythm_score`, so the embedding keeps all
three numeric fields. -/
structure WordAccuracyData where
  word : String
  accuracy_percentage : ℝ
  pronunciation_score : ℝ
  rhythm_score : ℝ

instance : Inhabited WordAccuracyData := ⟨⟨"", 0, 0, 0⟩⟩

/-- `models.PronunciationScore` (src/models.py lines 5–12). -/
structure PronunciationScore where
  pronunciation : ℝ
  fluency : ℝ
  intonation : ℝ
  stress : ℝ
  overall : ℝ

/-- `models.SubAlignment` (src/models.py lines 109–112); its `ref`/`learner`
slots hold single characters when produced by `_align_chars`. -/
structure SubAlignment where
  ref : Option Char
  learner : Option Char
  is_match : Bool
deriving DecidableEq

/-- `models.AlignmentItem` (src/models.py lines 115–119). -/
structure AlignmentItem where
  ref : Option String
  learner : Option String
  is_match : Bool
  sub_alignment : List SubAlignment
deriving DecidableEq

/-- A `phoneme_errors` entry (src/services/pronunciation_service.py lines
93–97): a dict with keys `"type"`, `"expected_phoneme"`, `"actual_phoneme"`. -/
structure PhonemeErrorRec where
  errorType : String
  expected_phoneme : String
  actual_phoneme : String
deriving DecidableEq

/-- `models.PhoneticPronunciationResponse` (src/models.py lines 122–133). -/
structure PhoneticPronunciationResponse where
  original_sentence : String
  transcribed_text : String
  reference_phonemes : List PhonemeData
  learner_phonemes : List PhonemeData
  word_accuracy : List WordAccuracyData
  scores : PronunciationScore
  phoneme_errors : List PhonemeErrorRec
  phoneme_alignment : List AlignmentItem
  feedback : String
  wer_score : ℝ
  confidence : ℝ

/-- Python's `round(x, 1)` modelled as exact rounding of a real number to the
nearest tenth (`round` rounds half upwards; the binary-float tie behaviour of
CPython is below the resolution of every statement proved here). -/
noncomputable def round1 (x : ℝ) : ℝ := (round (10 * x) : ℤ) / 10

/-- `s.replace(" ", "")` as used on phoneme strings
(src/services/pronunciation_service.py lines 59 and 68). -/
def stripSpaces (s : String) : String := ⟨s.toList.filter (· ≠ ' ')⟩

/-- The pronunciation-score formula of
src/services/pronunciation_service.py line 73:
`max(0.0, (len(ref_seq) - dist) / max(len(ref_seq), 1)) * 100`. -/
noncomputable def pronunciation_score_of (ref_seq phon_est : String) : ℝ :=
  max 0 (((ref_seq.length : ℝ) - (edit_distance_python ref_seq phon_est : ℝ))
      / max (ref_seq.length : ℝ) 1) * 100

/-- The rhythm-score computation of
src/services/pronunciation_service.py lines 76–90 for one timestamp dict:
defined only when both `'start'` and `'end'` are present; expected duration is
`0.08 * len(ref_seq) + 0.15` seconds and the score is a Gaussian in the
duration ratio with `sigma = 0.4`, scaled to 100. -/
noncomputable def rhythm_score_of (ref_seq : String) (info : TimedWord) : ℝ :=
  match info.startTime, info.endTime with
  | some s, some e =>
      let learner_duration := e - s
      let standard_duration := 0.08 * (ref_seq.length : ℝ) + 0.15
      if 0 < standard_duration then
        Real.exp (-0.5 * ((learner_duration / standard_duration - 1) / 0.4) ^ 2) * 100
      else 0
  | _, _ => 0

/-- The guard `i < len(mapped_indices) and mapped_indices[i] >= 0`
(src/services/pronunciation_service.py line 66). -/
def mappedOk (mi : List Int) (i : Nat) : Prop := i < mi.length ∧ 0 ≤ mi.getD i (-1)

instance (mi : List Int) (i : Nat) : Decidable (mappedOk mi i) := by
  unfold mappedOk; infer_instance

/-- The per-word `pronunciation_score` variable of the scoring loop
(src/services/pronunciation_service.py lines 63 and 71–73): the formula on the
whitespace-stripped phoneme strings when a candidate is mapped, else the
initial `0.0`. -/
noncomputable def wordPronunciation (learner : List PhonemeData) (mi : List Int)
    (ref : PhonemeData) (i : Nat) : ℝ :=
  if mappedOk mi i then
    pronunciation_score_of (stripSpaces ref.phoneme)
      (stripSpaces ((learner.getD (mi.getD i (-1)).toNat default).phoneme))
  else 0

/-- The per-word `rhythm_score` variable of the scoring loop
(src/services/pronunciation_service.py lines 64 and 76–90): stays `0.0` unless
a candidate is mapped, its index has a timestamp entry, and that entry carries
both `'start'` and `'end'`. -/
noncomputable def wordRhythm (ts : List TimedWord) (mi : List Int)
    (ref : PhonemeData) (i : Nat) : ℝ :=
  if mappedOk mi i then
    let idx := (mi.getD i (-1)).toNat
    if idx < ts.length then rhythm_score_of (stripSpaces ref.phoneme) (ts.getD idx default)
    else 0
  else 0

/-- The `phoneme_errors` entry appended for reference word `i`
(src/services/pronunciation_service.py lines 92–97), produced exactly when a
candidate is mapped and the phoneme edit distance is positive. -/
def wordError (learner : List PhonemeData) (mi : List Int)
    (ref : PhonemeData) (i : Nat) : Option PhonemeErrorRec :=
  if mappedOk mi i then
    let idx := (mi.getD i (-1)).toNat
    let phon_est := stripSpaces ((learner.getD idx default).phoneme)
    if 0 < edit_distance_python (stripSpaces ref.phoneme) phon_est then
      some ⟨"pronunciation", ref.phoneme,
            if phon_est ≠ "" then (learner.getD idx default).phoneme else ""⟩
    else none
  else none

/-- The `WordAccuracyData` appended for reference word `i`
(src/services/pronunciation_service.py lines 99–110):
`final_accuracy = pronunciation_score * 0.7 + rhythm_score * 0.3`, every stored
field rounded to one decimal. -/
noncomputable def wordAccuracyAt (learner : List PhonemeData) (ts : List TimedWord)
    (mi : List Int) (ref : PhonemeData) (i : Nat) : WordAccuracyData :=
  let p := wordPronunciation learner mi ref i
  let r := wordRhythm ts mi ref i
  { word := ref.word
    accuracy_percentage := round1 (p * 0.7 + r * 0.3)
    pronunciation_score := round1 p
    rhythm_score := round1 r }

/-! Embedding of Python's `difflib.SequenceMatcher` (with `isjunk=None`) as
used by `_align_sequences_dtw_patched` on short word lists.  The junk
heuristics (`autojunk` fires only on sequences of 200+ elements and merely
changes which maximal block is preferred) are not modelled; every theorem below
depends only on the bounds of the returned blocks, not on which block is
picked. -/

/-- Length of the longest common prefix of two lists. -/
def commonPrefixLen : List String → List String → Nat
  | [], _ => 0
  | _ :: _, [] => 0
  | a :: as, b :: bs => if a = b then commonPrefixLen as bs + 1 else 0

/-- The size of the matching run starting at `(i, j)` inside the window
`[_, ahi) × [_, bhi)`. -/
def matchSizeAt (a b : List String) (ahi bhi i j : Nat) : Nat :=
  commonPrefixLen ((a.take ahi).drop i) ((b.take bhi).drop j)

/-- `SequenceMatcher.find_longest_match` on the window
`[alo, ahi) × [blo, bhi)`: the largest matching block, ties resolved towards
the smallest start in `a`, then the smallest start in `b`; `(alo, blo, 0)` when
the window has no common element. -/
def findLongestMatch (a b : List String) (alo ahi blo bhi : Nat) : Nat × Nat × Nat :=
  ((List.range' alo (ahi - alo)).flatMap fun i =>
      (List.range' blo (bhi - blo)).map fun j => (i, j)).foldl
    (fun best p =>
      let k := matchSizeAt a b ahi bhi p.1 p.2
      if best.2.2 < k then (p.1, p.2, k) else best)
    (alo, blo, 0)

/-- The recursive block collection of `SequenceMatcher.get_matching_blocks`
(CPython uses an explicit queue and a final sort; emitting in recursion order
yields the same sorted list).  `fuel` strictly exceeds the window perimeter, so
it never runs out. -/
def matchingBlocksAux (a b : List String) :
    Nat → Nat → Nat → Nat → Nat → List (Nat × Nat × Nat)
  | 0, _, _, _, _ => []
  | fuel + 1, alo, ahi, blo, bhi =>
    let r := findLongestMatch a b alo ahi blo bhi
    if r.2.2 = 0 then []
    else
      matchingBlocksAux a b fuel alo r.1 blo r.2.1 ++
        r :: matchingBlocksAux a b fuel (r.1 + r.2.2) ahi (r.2.1 + r.2.2) bhi

/-- The adjacency-merging pass of `SequenceMatcher.get_matching_blocks`:
`(i1,j1,k1)` is the accumulator (initially `(0,0,0)`), merged with the next
block when exactly adjacent on both sides, emitted when nonempty otherwise. -/
def mergeAdjAux : Nat × Nat × Nat → List (Nat × Nat × Nat) → List (Nat × Nat × Nat)
  | c, [] => if c.2.2 ≠ 0 then [c] else []
  | c, d :: rest =>
      if c.1 + c.2.2 = d.1 ∧ c.2.1 + c.2.2 = d.2.1 then
        mergeAdjAux (c.1, c.2.1, c.2.2 + d.2.2) rest
      else (if c.2.2 ≠ 0 then [c] else []) ++ mergeAdjAux d rest

/-- `SequenceMatcher.get_matching_blocks`: merged blocks followed by the
terminal sentinel `(len(a), len(b), 0)`. -/
def get_matching_blocks (a b : List String) : List (Nat × Nat × Nat) :=
  mergeAdjAux (0, 0, 0)
      (matchingBlocksAux a b (a.length + b.length + 1) 0 a.length 0 b.length) ++
    [(a.length, b.length, 0)]

/-- Opcode tags of `SequenceMatcher.get_opcodes`. -/
inductive OpTag
  | equal
  | replace
  | delete
  | insert
deriving DecidableEq

/-- The opcode-emitting walk of `SequenceMatcher.get_opcodes`: `(i, j)` is the
position reached so far; each block first yields a gap opcode (replace, delete
or insert) and then an `equal` opcode when its size is nonzero. -/
def opcodeWalk : Nat → Nat → List (Nat × Nat × Nat) → List (OpTag × Nat × Nat × Nat × Nat)
  | _, _, [] => []
  | i, j, c :: rest =>
      (if i < c.1 ∧ j < c.2.1 then [(OpTag.replace, i, c.1, j, c.2.1)]
       else if i < c.1 then [(OpTag.delete, i, c.1, j, c.2.1)]
       else if j < c.2.1 then [(OpTag.insert, i, c.1, j, c.2.1)]
       else []) ++
      (if c.2.2 ≠ 0 then [(OpTag.equal, c.1, c.1 + c.2.2, c.2.1, c.2.1 + c.2.2)] else []) ++
      opcodeWalk (c.1 + c.2.2) (c.2.1 + c.2.2) rest

/-- `SequenceMatcher(None, a, b).get_opcodes()`. -/
def get_opcodes (a b : List String) : List (OpTag × Nat × Nat × Nat × Nat) :=
  opcodeWalk 0 0 (get_matching_blocks a b)

/-- `PronunciationService._align_chars`
(src/services/pronunciation_service.py lines 242–299): character-level DTW
alignment; path steps out of range on one axis become deletions/insertions,
steps out of range on both axes are skipped. -/
def align_chars (dtwPath : List (List ℚ) → List (Nat × Nat))
    (ref_chars learner_chars : List Char) : List SubAlignment :=
  match ref_chars, learner_chars with
  | [], [] => []
  | [], ls => ls.map fun l => ⟨none, some l, false⟩
  | rs, [] => rs.map fun r => ⟨some r, none, false⟩
  | rs, ls =>
      let M := ls.map fun lc => rs.map fun rc => if lc = rc then (0 : ℚ) else 1
      (dtwPath M).filterMap fun step =>
        let li := step.1
        let ri := step.2
        if li < ls.length ∧ ri < rs.length then
          some ⟨some (rs.getD ri ' '), some (ls.getD li ' '),
                rs.getD ri ' ' == ls.getD li ' '⟩
        else if ls.length ≤ li ∧ ri < rs.length then
          some ⟨some (rs.getD ri ' '), none, false⟩
        else if li < ls.length ∧ rs.length ≤ ri then
          some ⟨none, some (ls.getD li ' '), false⟩
        else none

/-- `PronunciationService._build_alignment_item`
(src/services/pronunciation_service.py lines 227–240): character sub-alignment
is computed for non-matching pairs; the stored `is_match` additionally requires
both sides present. -/
def build_alignment_item (dtwPath : List (List ℚ) → List (Nat × Nat))
    (ref_val learner_val : Option String) (is_match : Bool) : AlignmentItem :=
  { ref := ref_val
    learner := learner_val
    is_match := is_match && (ref_val.isSome && learner_val.isSome)
    sub_alignment :=
      if is_match then []
      else align_chars dtwPath (ref_val.getD "").toList (learner_val.getD "").toList }

/-- The normalized Levenshtein distance matrix of
`_align_sequences_dtw_patched` (src/services/pronunciation_service.py lines
157–165): rows indexed by the learner sequence, columns by the reference
sequence, each distance divided by `max(len(learner), len(ref), 1)`. -/
def normalized_distance_matrix (learner_seq ref_seq : List String) : List (List ℚ) :=
  learner_seq.map fun l => ref_seq.map fun r =>
    (edit_distance_python l r : ℚ) / (max (max l.length r.length) 1 : ℚ)

/-- `THRESHOLD` (src/services/pronunciation_service.py line 175). -/
def THRESHOLD : ℚ := 0.6

/-- The `good_alignments` post-processing loop of
`_align_sequences_dtw_patched` (src/services/pronunciation_service.py lines
177–191): walk the DTW path, pair each not-yet-mapped `(learner, ref)` step
whose normalized distance is below `THRESHOLD`.  The caller computes this list
and then never uses it. -/
def goodAlignments (dtwPath : List (List ℚ) → List (Nat × Nat))
    (ref_seq learner_seq : List String) : List AlignmentItem :=
  let M := normalized_distance_matrix learner_seq ref_seq
  ((dtwPath M).foldl
    (fun (st : List Nat × List Nat × List AlignmentItem) step =>
      let li := step.1
      let ri := step.2
      if li ∉ st.1 ∧ ri ∉ st.2.1 then
        if (M.getD li []).getD ri 0 < THRESHOLD then
          (li :: st.1, ri :: st.2.1,
            st.2.2 ++ [build_alignment_item dtwPath (some (ref_seq.getD ri ""))
              (some (learner_seq.getD li "")) (ref_seq.getD ri "" == learner_seq.getD li "")])
        else st
      else st)
    ([], [], [])).2.2

/-- The final-alignment contribution of one `SequenceMatcher` opcode
(src/services/pronunciation_service.py lines 201–223): `equal` pairs the two
ranges positionally as matches; `replace` pairs the two sub-slices positionally,
padding the shorter side with `None`; `delete` emits reference-only entries;
`insert` emits learner-only entries. -/
def alignOfOpcode (dtwPath : List (List ℚ) → List (Nat × Nat))
    (rs ls : List String) : OpTag × Nat × Nat × Nat × Nat → List AlignmentItem
  | (OpTag.equal, i1, i2, j1, _) =>
      (List.range (i2 - i1)).map fun i =>
        build_alignment_item dtwPath (some (rs.getD (i1 + i) ""))
          (some (ls.getD (j1 + i) "")) true
  | (OpTag.replace, i1, i2, j1, j2) =>
      let sub_ref := (rs.drop i1).take (i2 - i1)
      let sub_learner := (ls.drop j1).take (j2 - j1)
      (List.range (max sub_ref.length sub_learner.length)).map fun i =>
        build_alignment_item dtwPath sub_ref[i]? sub_learner[i]?
          (sub_ref[i]? == sub_learner[i]?)
  | (OpTag.delete, i1, i2, _, _) =>
      (List.range (i2 - i1)).map fun i =>
        build_alignment_item dtwPath (some (rs.getD (i1 + i) "")) none false
  | (OpTag.insert, _, _, j1, j2) =>
      (List.range (j2 - j1)).map fun j =>
        build_alignment_item dtwPath none (some (ls.getD (j1 + j) "")) false

/-- `PronunciationService._align_sequences_dtw_patched`
(src/services/pronunciation_service.py lines 142–225).  After the empty-side
special cases, the function computes the normalized distance matrix, the DTW
path and the thresholded `good_alignments` list — and then builds the returned
alignment purely from `SequenceMatcher.get_opcodes`, discarding
`good_alignments` (bound here as `_good`, unused exactly as in the source). -/
def align_sequences_dtw_patched (dtwPath : List (List ℚ) → List (Nat × Nat))
    (ref_seq learner_seq : List String) : List AlignmentItem :=
  match ref_seq, learner_seq with
  | [], [] => []
  | [], ls => ls.map fun l => build_alignment_item dtwPath none (some l) false
  | rs, [] => rs.map fun r => build_alignment_item dtwPath (some r) none false
  | rs, ls =>
      let _good := goodAlignments dtwPath rs ls
      (get_opcodes rs ls).flatMap (alignOfOpcode dtwPath rs ls)

/-- `PronunciationService.evaluate_pronunciation_phonemes_aligned`
(src/services/pronunciation_service.py lines 42–140).  The external DTW path
search and the external `jiwer.wer` metric are the parameters `dtwPath` and
`werFn`.  Returns `(scores, phoneme_errors, wer_score, word_accuracy)`. -/
noncomputable def evaluate_pronunciation_phonemes_aligned
    (dtwPath : List (List ℚ) → List (Nat × Nat)) (werFn : String → String → ℝ)
    (reference_phonemes learner_phonemes : List PhonemeData)
    (learner_words_with_ts : List TimedWord) :
    PronunciationScore × List PhonemeErrorRec × ℝ × List WordAccuracyData :=
  let ref_words := reference_phonemes.map (·.word)
  let est_words := learner_phonemes.map (·.word)
  let mi := (get_best_mapped_words_dtw dtwPath est_words ref_words).2
  let word_accuracy := (List.range reference_phonemes.length).map fun i =>
    wordAccuracyAt learner_phonemes learner_words_with_ts mi
      (reference_phonemes.getD i default) i
  let phoneme_errors := (List.range reference_phonemes.length).filterMap fun i =>
    wordError learner_phonemes mi (reference_phonemes.getD i default) i
  let ref_seq_all := String.intercalate " " (reference_phonemes.map (·.phoneme))
  let est_seq_all := String.intercalate " "
    ((List.range ref_words.length).filterMap fun i =>
      if 0 ≤ mi.getD i (-1) then
        some ((learner_phonemes.getD (mi.getD i (-1)).toNat default).phoneme)
      else none)
  let wer_score := werFn ref_seq_all est_seq_all
  let overall_accuracy : ℝ := if word_accuracy.isEmpty then 0 else
    round1 ((word_accuracy.map (·.accuracy_percentage)).sum / (word_accuracy.length : ℝ))
  let overall_pronunciation : ℝ := if word_accuracy.isEmpty then 0 else
    round1 ((word_accuracy.map (·.pronunciation_score)).sum / (word_accuracy.length : ℝ))
  ({ pronunciation := overall_pronunciation, fluency := 0, intonation := 0, stress := 0,
     overall := overall_accuracy },
   phoneme_errors, wer_score, word_accuracy)

/-- An `HTTPException` raised by the orchestrator. -/
structure HTTPError where
  status_code : Nat
  detail : String
deriving DecidableEq

/-- One `word_errors_for_llm` dict (src/services/pronunciation_service.py
lines 341–344). -/
structure LlmError where
  error_type : String
  expected : String
  actual : String
deriving DecidableEq

/-- Helper for `pySplit`: scan the characters, accumulating the current word
(in reverse) and closing it at whitespace. -/
def pySplitAux : List Char → List Char → List (List Char)
  | [], acc => if acc.isEmpty then [] else [acc.reverse]
  | c :: cs, acc =>
      if c.isWhitespace then
        if acc.isEmpty then pySplitAux cs [] else acc.reverse :: pySplitAux cs []
      else pySplitAux cs (c :: acc)

/-- Python's `str.split()` with no argument: split on whitespace runs,
discarding empty pieces (so `"".split() == []`). -/
def pySplit (s : String) : List String := (pySplitAux s.toList []).map fun cs => ⟨cs⟩

/-- Python's `str.strip()` with no argument: drop leading and trailing
whitespace. -/
def pyStrip (s : String) : String :=
  ⟨((s.toList.dropWhile Char.isWhitespace).reverse.dropWhile Char.isWhitespace).reverse⟩

/-- `PronunciationService.process_phonetic_evaluation`
(src/services/pronunciation_service.py lines 301–372).

The transcriber call of line 307 is modelled by the pre-computed
`transcriberResult` triple `(text?, confidence, learner_words_with_ts)` —
note that the repository's own `WhisperService.transcribe_audio_base64`
(src/services/whisper_service.py lines 37–105) actually returns a *pair*
`(text, confidence)` with `text = ""` on failure, so the three-way unpacking
at line 307 cannot succeed against it; the model represents the orchestrator's
own control flow, whose only failure check is `transcribed_text is None`
(line 310, the `none` case here).  The phonemizer and the LLM feedback
generator are the parameters `phonemizeFn` and `llmFn`; an LLM exception is
`Except.error ()` (lines 350–352), and empty/blank feedback is replaced at
lines 348–349. -/
noncomputable def process_phonetic_evaluation
    (dtwPath : List (List ℚ) → List (Nat × Nat)) (werFn : String → String → ℝ)
    (phonemizeFn : List String → List String)
    (llmFn : String → String → PronunciationScore → List LlmError → ℝ → Except Unit String)
    (sentence : String)
    (transcriberResult : Option String × ℝ × List TimedWord) :
    Except HTTPError PhoneticPronunciationResponse :=
  match transcriberResult.1 with
  | none => .error ⟨500, "Could not transcribe audio."⟩
  | some transcribed_text =>
      let confidence := transcriberResult.2.1
      let learner_words_with_ts := transcriberResult.2.2
      let original_words := pySplit sentence
      let reference_phonemes_list :=
        List.zipWith (fun w p => PhonemeData.mk w (pyStrip p)) original_words
          (phonemizeFn original_words)
      let learner_words := pySplit transcribed_text
      let learner_phonemes_list :=
        List.zipWith (fun w p => PhonemeData.mk w (pyStrip p)) learner_words
          (phonemizeFn learner_words)
      let r := evaluate_pronunciation_phonemes_aligned dtwPath werFn
        reference_phonemes_list learner_phonemes_list learner_words_with_ts
      let ref_seq := (reference_phonemes_list.map fun p => pyStrip p.phoneme).filter (· ≠ "")
      let learner_seq := (learner_phonemes_list.map fun p => pyStrip p.phoneme).filter (· ≠ "")
      let phoneme_alignment := align_sequences_dtw_patched dtwPath ref_seq learner_seq
      let word_errors_for_llm := r.2.1.map fun e =>
        LlmError.mk e.errorType e.expected_phoneme e.actual_phoneme
      let feedback :=
        match llmFn sentence transcribed_text r.1 word_errors_for_llm r.2.2.1 with
        | .error _ => "Could not generate AI feedback at this time."
        | .ok f => if pyStrip f = "" then "AI feedback is currently unavailable." else f
      .ok { original_sentence := sentence
            transcribed_text := transcribed_text
            reference_phonemes := reference_phonemes_list
            learner_phonemes := learner_phonemes_list
            word_accuracy := r.2.2.2
            scores := r.1
            phoneme_errors := r.2.1
            phoneme_alignment := phoneme_alignment
            feedback := feedback
            wer_score := r.2.2.1
            confidence := confidence }

/-! ### Lemmas about the word mapper -/

theorem positionsOf_mem {mi : List Nat} {w p : Nat} (h : p ∈ positionsOf mi w) :
    mi.get? p = some w := by
  rcases List.mem_filter.mp h with ⟨-, h2⟩
  exact eq_of_beq h2

theorem bestStep_snd (est : List String) (rw : String) (st : Nat × String × Int) (p : Nat) :
    (bestStep est rw st p).2.2 = st.2.2 ∨
      ((bestStep est rw st p).2.2 = (p : Int) ∧ p < est.length) := by
  unfold bestStep
  split
  · exact Or.inl rfl
  · next hp =>
    dsimp only
    split
    · exact Or.inr ⟨rfl, lt_of_not_le hp⟩
    · exact Or.inl rfl

theorem foldl_bestStep_mem (est : List String) (rw : String) (ps : List Nat) :
    ∀ st : Nat × String × Int,
      (ps.foldl (bestStep est rw) st).2.2 = st.2.2 ∨
        ∃ p ∈ ps, (ps.foldl (bestStep est rw) st).2.2 = (p : Int) ∧ p < est.length := by
  induction ps with
  | nil => exact fun st => Or.inl rfl
  | cons p ps ih =>
      intro st
      rcases ih (bestStep est rw st p) with h | ⟨q, hq, h1, h2⟩
      · rcases bestStep_snd est rw st p with h2 | ⟨h2, h3⟩
        · exact Or.inl (by simpa [h2] using h)
        · exact Or.inr ⟨p, List.mem_cons_self p ps, by simpa [h2] using h, h3⟩
      · exact Or.inr ⟨q, List.mem_cons_of_mem p hq, by simpa using h1, h2⟩

theorem foldl_bestStep_skip (est : List String) (rw : String) (ps : List Nat)
    (hblank : ∀ p ∈ ps, est.length ≤ p) :
    ∀ st : Nat × String × Int, ps.foldl (bestStep est rw) st = st := by
  induction ps with
  | nil => exact fun st => rfl
  | cons p ps ih =>
      intro st
      have hp : bestStep est rw st p = st := by
        unfold bestStep
        rw [if_pos (hblank p (List.mem_cons_self p ps))]
      calc (p :: ps).foldl (bestStep est rw) st
          = ps.foldl (bestStep est rw) (bestStep est rw st p) := rfl
        _ = st := by rw [hp]; exact ih (fun q hq => hblank q (List.mem_cons_of_mem p hq)) st

theorem resultEntry_snd_cases (mi : List Nat) (est real : List String) (w : Nat) :
    (resultEntry mi est real w).2 = -1 ∨
      ∃ p ∈ positionsOf mi w, (resultEntry mi est real w).2 = (p : Int) ∧ p < est.length := by
  unfold resultEntry
  cases hps : positionsOf mi w with
  | nil => exact Or.inl rfl
  | cons p0 rest =>
      cases rest with
      | nil =>
          by_cases hle : est.length ≤ p0
          · left; simp [hle]
          · right
            exact ⟨p0, List.mem_cons_self p0 [], by simp [hle], lt_of_not_le hle⟩
      | cons p1 rest2 =>
          rcases foldl_bestStep_mem est (real.getD w "") (p0 :: p1 :: rest2)
              (99999, "", -1) with h | ⟨p, hp, h1, h2⟩
          · left; simpa [bestCandidateFold] using h
          · right
            exact ⟨p, hp, by simpa [bestCandidateFold] using h1, h2⟩

theorem get_resulting_string_snd_getD (mi : List Nat) (est real : List String)
    (w : Nat) (hw : w < real.length) :
    (get_resulting_string mi est real).2.getD w (-1) = (resultEntry mi est real w).2 := by
  unfold get_resulting_string
  simp [List.getD_eq_getElem?_getD, List.getElem?_map, List.getElem?_range, hw]

theorem get_resulting_string_fst_getD (mi : List Nat) (est real : List String)
    (w : Nat) (hw : w < real.length) :
    (get_resulting_string mi est real).1.getD w "" = (resultEntry mi est real w).1 := by
  unfold get_resulting_string
  simp [List.getD_eq_getElem?_getD, List.getElem?_map, List.getElem?_range, hw]

theorem get_resulting_string_snd_getD_oob (mi : List Nat) (est real : List String)
    (w : Nat) (hw : real.length ≤ w) :
    (get_resulting_string mi est real).2.getD w (-1) = -1 := by
  unfold get_resulting_string
  rw [List.getD_eq_getElem?_getD, List.getElem?_map, List.getElem?_map,
    List.getElem?_eq_none (by simpa using hw)]
  rfl

theorem get_resulting_string_inj (mi : List Nat) (est real : List String) (i j : Nat)
    (hij : i ≠ j)
    (h1 : 0 ≤ (get_resulting_string mi est real).2.getD i (-1))
    (h2 : 0 ≤ (get_resulting_string mi est real).2.getD j (-1)) :
    (get_resulting_string mi est real).2.getD i (-1) ≠
      (get_resulting_string mi est real).2.getD j (-1) := by
  by_cases hi : i < real.length
  · by_cases hj : j < real.length
    · rw [get_resulting_string_snd_getD mi est real i hi] at h1 ⊢
      rw [get_resulting_string_snd_getD mi est real j hj] at h2 ⊢
      rcases resultEntry_snd_cases mi est real i with hci | ⟨pi, hpi, hvi, -⟩
      · rw [hci] at h1; norm_num at h1
      · rcases resultEntry_snd_cases mi est real j with hcj | ⟨pj, hpj, hvj, -⟩
        · rw [hcj] at h2; norm_num at h2
        · rw [hvi, hvj]
          intro hcast
          have hpq : pi = pj := by exact_mod_cast hcast
          have e1 := positionsOf_mem hpi
          have e2 := positionsOf_mem hpj
          rw [hpq, e2] at e1
          exact hij ((Option.some_injective _ e1).symm)
    · rw [get_resulting_string_snd_getD_oob mi est real j (le_of_not_lt hj)] at h2
      norm_num at h2
  · rw [get_resulting_string_snd_getD_oob mi est real i (le_of_not_lt hi)] at h1
    norm_num at h1

/-- C1 — Mapper injectivity: for every candidate word list and reference word
list, the index lists returned by `get_resulting_string` and by
`get_best_mapped_words_dtw` (for any DTW path) never assign the same candidate
index to two distinct reference-word positions: whenever two positions
`i ≠ j` both hold an index `≥ 0`, those indices differ. -/
theorem mapper_injectivity :
    (∀ (mi : List Nat) (est real : List String) (i j : Nat), i ≠ j →
        0 ≤ (get_resulting_string mi est real).2.getD i (-1) →
        0 ≤ (get_resulting_string mi est real).2.getD j (-1) →
        (get_resulting_string mi est real).2.getD i (-1) ≠
          (get_resulting_string mi est real).2.getD j (-1)) ∧
    (∀ (dtwPath : List (List ℚ) → List (Nat × Nat)) (est real : List String) (i j : Nat),
        i ≠ j →
        0 ≤ (get_best_mapped_words_dtw dtwPath est real).2.getD i (-1) →
        0 ≤ (get_best_mapped_words_dtw dtwPath est real).2.getD j (-1) →
        (get_best_mapped_words_dtw dtwPath est real).2.getD i (-1) ≠
          (get_best_mapped_words_dtw dtwPath est real).2.getD j (-1)) := by
  constructor
  · exact get_resulting_string_inj
  · intro dtwPath est real i j hij h1 h2
    simp only [get_best_mapped_words_dtw] at h1 h2 ⊢
    exact get_resulting_string_inj _ est real i j hij h1 h2

/-- Witness for C1 at a concrete input where two reference words both receive
a candidate index. -/
theorem mapper_injectivity_witness :
    (0 ≤ (get_resulting_string [0, 1] ["a", "b"] ["a", "b"]).2.getD 0 (-1) ∧
      0 ≤ (get_resulting_string [0, 1] ["a", "b"] ["a", "b"]).2.getD 1 (-1)) ∧
    (get_resulting_string [0, 1] ["a", "b"] ["a", "b"]).2.getD 0 (-1) ≠
      (get_resulting_string [0, 1] ["a", "b"] ["a", "b"]).2.getD 1 (-1) :=
  ⟨⟨by decide, by decide⟩,
    mapper_injectivity.1 [0, 1] ["a", "b"] ["a", "b"] 0 1 (by decide) (by decide) (by decide)⟩

/-- C9 — Not-found sentinel is not unique: when more than one path position is
grouped onto a reference word but every such position points at or beyond the
blank row, `get_resulting_string` emits the empty string with index `-1`
for that reference word, not the `"-"` `WORD_NOT_FOUND_TOKEN` used by the
zero-position and single-position branches. -/
theorem multi_blank_entry (mi : List Nat) (est real : List String) (w : Nat)
    (hw : w < real.length) (hlen : 2 ≤ (positionsOf mi w).length)
    (hblank : ∀ p ∈ positionsOf mi w, est.length ≤ p) :
    (get_resulting_string mi est real).1.getD w "" = "" ∧
    (get_resulting_string mi est real).2.getD w (-1) = -1 ∧
    (get_resulting_string mi est real).1.getD w "" ≠ WORD_NOT_FOUND_TOKEN := by
  obtain ⟨p0, p1, rest2, hps⟩ : ∃ p0 p1 rest2, positionsOf mi w = p0 :: p1 :: rest2 := by
    cases h : positionsOf mi w with
    | nil => rw [h] at hlen; simp at hlen
    | cons a tl =>
        cases tl with
        | nil => rw [h] at hlen; simp at hlen
        | cons b tl2 => exact ⟨a, b, tl2, rfl⟩
  rw [hps] at hblank
  have hre : resultEntry mi est real w = ("", -1) := by
    unfold resultEntry
    rw [hps]
    simp only [bestCandidateFold]
    rw [foldl_bestStep_skip est (real.getD w "") (p0 :: p1 :: rest2) hblank (99999, "", -1)]
  rw [get_resulting_string_fst_getD mi est real w hw,
    get_resulting_string_snd_getD mi est real w hw, hre]
  exact ⟨rfl, rfl, by decide⟩

/-- Witness for C9: positions 1 and 2 of the path index list are grouped onto
reference word 0, and both lie at or beyond the single-candidate blank row. -/
theorem multi_blank_entry_witness :
    ((0 < 1 ∧ 2 ≤ (positionsOf [9, 0, 0] 0).length) ∧
      ∀ p ∈ positionsOf [9, 0, 0] 0, 1 ≤ p) ∧
    (get_resulting_string [9, 0, 0] ["a"] ["x"]).1.getD 0 "" = "" ∧
    (get_resulting_string [9, 0, 0] ["a"] ["x"]).2.getD 0 (-1) = -1 ∧
    (get_resulting_string [9, 0, 0] ["a"] ["x"]).1.getD 0 "" ≠ WORD_NOT_FOUND_TOKEN :=
  ⟨⟨⟨by decide, by decide⟩, by decide⟩,
    multi_blank_entry [9, 0, 0] ["a"] ["x"] 0 (by decide) (by decide) (by decide)⟩

/-- C10 — Letter-marking precondition, shape and mutation:
`getWhichLettersWereTranscribedCorrectly` succeeds exactly when the transcribed
word is at least as long as the real word; the marks list then has one 0/1
entry per real-word letter, an entry being 1 iff the lowercased letters agree
or the (lowercased) reference letter is punctuation; the mutated transcribed
word has its first `len(real_word)` letters lowercased and the rest unchanged;
a shorter transcribed word yields no result (the Python index access raises). -/
theorem letter_marking_spec (r t : List Char) :
    (r.length ≤ t.length →
      ∃ marks mutated,
        getWhichLettersWereTranscribedCorrectly r t = some (marks, mutated) ∧
        marks.length = r.length ∧
        (∀ i, i < r.length →
          (marks.getD i 0 = 1 ↔
            ((r.getD i ' ').toLower = (t.getD i ' ').toLower ∨
              (r.getD i ' ').toLower ∈ punctuationChars)) ∧
          (marks.getD i 0 = 1 ∨ marks.getD i 0 = 0)) ∧
        mutated.length = t.length ∧
        (∀ i, i < t.length →
          mutated.getD i ' ' =
            if i < r.length then (t.getD i ' ').toLower else t.getD i ' ')) ∧
    (t.length < r.length → getWhichLettersWereTranscribedCorrectly r t = none) := by
  constructor
  · intro hle
    refine ⟨letterMarks r t, lowerMutated r t,
      by unfold getWhichLettersWereTranscribedCorrectly; rw [if_neg (not_lt.mpr hle)],
      ?_, ?_, ?_, ?_⟩
    · simp [letterMarks]
    · intro i hi
      rw [letterMarks, List.getD_eq_getElem _ _ (by simpa using hi), List.getElem_map,
        List.getElem_range]
      constructor
      · split
        next h => exact iff_of_true rfl h
        next h => exact iff_of_false (by decide) h
      · split
        · exact Or.inl rfl
        · exact Or.inr rfl
    · simp [lowerMutated]
      omega
    · intro i hi
      by_cases hir : i < r.length
      · rw [if_pos hir, lowerMutated,
          List.getD_append _ _ _ _ (by simp [min_eq_left hle]; omega),
          List.getD_eq_getElem _ _ (by simp [min_eq_left hle]; omega),
          List.getD_eq_getElem _ _ hi]
        simp
      · rw [if_neg hir, lowerMutated,
          List.getD_append_right _ _ _ _ (by simp [min_eq_left hle]; omega)]
        simp only [List.length_map, List.length_take, min_eq_left hle]
        rw [List.getD_eq_getElem?_getD, List.getElem?_drop, ← List.getD_eq_getElem?_getD]
        congr 1
        omega
  · intro hlt
    unfold getWhichLettersWereTranscribedCorrectly
    rw [if_pos hlt]

/-- Witness for C10, exercising both the successful branch (with a punctuation
mark, a case-folded match and a mismatch) and the failing branch. -/
theorem letter_marking_spec_witness :
    (['A', 'b', '!'].length ≤ ['a', 'C', 'd', 'e'].length ∧
      ∃ marks mutated,
        getWhichLettersWereTranscribedCorrectly ['A', 'b', '!'] ['a', 'C', 'd', 'e'] =
          some (marks, mutated)) ∧
    getWhichLettersWereTranscribedCorrectly ['a', 'b'] ['x'] = none := by
  refine ⟨⟨by decide, ?_⟩, (letter_marking_spec ['a', 'b'] ['x']).2 (by decide)⟩
  obtain ⟨marks, mutated, h, -⟩ :=
    (letter_marking_spec ['A', 'b', '!'] ['a', 'C', 'd', 'e']).1 (by decide)
  exact ⟨marks, mutated, h⟩

/-- C8 — Scorer monotonicity: for a fixed reference phoneme string, the
per-word pronunciation-score formula of line 73 (the function applied by
`wordPronunciation` inside `evaluate_pronunciation_phonemes_aligned`) is
non-increasing in the character-level edit distance to the candidate phoneme
string. -/
theorem scorer_monotonicity (ref c1 c2 : String)
    (h : edit_distance_python ref c1 ≤ edit_distance_python ref c2) :
    pronunciation_score_of ref c2 ≤ pronunciation_score_of ref c1 := by
  unfold pronunciation_score_of
  have hd : (edit_distance_python ref c1 : ℝ) ≤ (edit_distance_python ref c2 : ℝ) :=
    Nat.cast_le.mpr h
  have hpos : (0 : ℝ) < max (ref.length : ℝ) 1 :=
    lt_of_lt_of_le zero_lt_one (le_max_right _ _)
  have hdiv : ((ref.length : ℝ) - (edit_distance_python ref c2 : ℝ)) / max (ref.length : ℝ) 1 ≤
      ((ref.length : ℝ) - (edit_distance_python ref c1 : ℝ)) / max (ref.length : ℝ) 1 :=
    (div_le_div_iff_of_pos_right hpos).mpr (sub_le_sub_left hd _)
  exact mul_le_mul_of_nonneg_right (max_le_max le_rfl hdiv) (by norm_num)

/-- Witness for C8 at concrete candidate strings of edit distances 0 and 2. -/
theorem scorer_monotonicity_witness :
    edit_distance_python "ab" "ab" ≤ edit_distance_python "ab" "xy" ∧
    pronunciation_score_of "ab" "xy" ≤ pronunciation_score_of "ab" "ab" :=
  ⟨by decide, scorer_monotonicity "ab" "ab" "xy" (by decide)⟩

/-! ### Lemmas about the scorer -/

/-- The `mapped_indices` list used by
`evaluate_pronunciation_phonemes_aligned` at line 51. -/
def miOf (dtwPath : List (List ℚ) → List (Nat × Nat))
    (reference_phonemes learner_phonemes : List PhonemeData) : List Int :=
  (get_best_mapped_words_dtw dtwPath (learner_phonemes.map (·.word))
    (reference_phonemes.map (·.word))).2

theorem get_resulting_string_snd_length (mi : List Nat) (est real : List String) :
    (get_resulting_string mi est real).2.length = real.length := by
  simp [get_resulting_string]

theorem miOf_length (dtwPath : List (List ℚ) → List (Nat × Nat))
    (refs ls : List PhonemeData) : (miOf dtwPath refs ls).length = refs.length := by
  unfold miOf get_best_mapped_words_dtw
  rw [get_resulting_string_snd_length]
  simp

theorem evaluate_word_accuracy_eq (dtwPath : List (List ℚ) → List (Nat × Nat))
    (werFn : String → String → ℝ) (refs ls : List PhonemeData) (ts : List TimedWord) :
    (evaluate_pronunciation_phonemes_aligned dtwPath werFn refs ls ts).2.2.2 =
      (List.range refs.length).map fun i =>
        wordAccuracyAt ls ts (miOf dtwPath refs ls) (refs.getD i default) i := rfl

theorem evaluate_word_accuracy_getD (dtwPath : List (List ℚ) → List (Nat × Nat))
    (werFn : String → String → ℝ) (refs ls : List PhonemeData) (ts : List TimedWord)
    (i : Nat) (hi : i < refs.length) :
    (evaluate_pronunciation_phonemes_aligned dtwPath werFn refs ls ts).2.2.2.getD i default =
      wordAccuracyAt ls ts (miOf dtwPath refs ls) (refs.getD i default) i := by
  rw [evaluate_word_accuracy_eq, List.getD_eq_getElem _ _ (by simpa using hi),
    List.getElem_map, List.getElem_range]

theorem round1_mono {x y : ℝ} (h : x ≤ y) : round1 x ≤ round1 y := by
  unfold round1
  have hr : round (10 * x) ≤ round (10 * y) := by
    rw [round_eq, round_eq]
    exact Int.floor_mono (by linarith)
  exact (div_le_div_iff_of_pos_right (by norm_num)).mpr (Int.cast_le.mpr hr)

theorem round1_zero : round1 0 = 0 := by
  unfold round1
  norm_num

theorem round1_hundred : round1 100 = 100 := by
  unfold round1
  rw [show (10 : ℝ) * 100 = ((1000 : ℤ) : ℝ) by norm_num, round_intCast]
  norm_num

theorem round1_bounds {x : ℝ} (h0 : 0 ≤ x) (h1 : x ≤ 100) :
    0 ≤ round1 x ∧ round1 x ≤ 100 :=
  ⟨round1_zero ▸ round1_mono h0, round1_hundred ▸ round1_mono h1⟩

theorem round1_int (x : ℝ) (n : ℤ) (h1 : (n : ℝ) ≤ 10 * x + 1 / 2)
    (h2 : 10 * x + 1 / 2 < n + 1) : round1 x = (n : ℝ) / 10 := by
  unfold round1
  rw [round_eq, Int.floor_eq_iff.mpr ⟨h1, h2⟩]

theorem pronunciation_score_of_bounds (r c : String) :
    0 ≤ pronunciation_score_of r c ∧ pronunciation_score_of r c ≤ 100 := by
  unfold pronunciation_score_of
  have hpos : (0 : ℝ) < max (r.length : ℝ) 1 :=
    lt_of_lt_of_le zero_lt_one (le_max_right _ _)
  constructor
  · exact mul_nonneg (le_max_left 0 _) (by norm_num)
  · have hq : ((r.length : ℝ) - (edit_distance_python r c : ℝ)) / max (r.length : ℝ) 1 ≤ 1 := by
      rw [div_le_one hpos]
      exact (sub_le_self _ (Nat.cast_nonneg _)).trans (le_max_left _ _)
    calc max 0 (((r.length : ℝ) - (edit_distance_python r c : ℝ)) / max (r.length : ℝ) 1) * 100
        ≤ 1 * 100 := mul_le_mul_of_nonneg_right (max_le zero_le_one hq) (by norm_num)
      _ = 100 := by norm_num

theorem rhythm_score_of_bounds (r : String) (info : TimedWord) :
    0 ≤ rhythm_score_of r info ∧ rhythm_score_of r info ≤ 100 := by
  obtain ⟨st, en⟩ := info
  cases st with
  | none => cases en <;> exact ⟨le_refl 0, by norm_num [rhythm_score_of]⟩
  | some s =>
      cases en with
      | none => exact ⟨le_refl 0, by norm_num [rhythm_score_of]⟩
      | some e =>
          unfold rhythm_score_of
          dsimp only
          split
          · set z : ℝ := -0.5 * (((e - s) / (0.08 * ((r.length : ℝ)) + 0.15) - 1) / 0.4) ^ 2
              with hz
            have hz0 : z ≤ 0 := by
              rw [hz]
              have := sq_nonneg (((e - s) / (0.08 * ((r.length : ℝ)) + 0.15) - 1) / 0.4)
              nlinarith
            constructor
            · exact mul_nonneg (Real.exp_pos z).le (by norm_num)
            · calc Real.exp z * 100 ≤ 1 * 100 :=
                  mul_le_mul_of_nonneg_right (Real.exp_le_one_iff.mpr hz0) (by norm_num)
                _ = 100 := by norm_num
          · exact ⟨le_refl 0, by norm_num⟩

theorem wordPronunciation_bounds (ls : List PhonemeData) (mi : List Int)
    (ref : PhonemeData) (i : Nat) :
    0 ≤ wordPronunciation ls mi ref i ∧ wordPronunciation ls mi ref i ≤ 100 := by
  unfold wordPronunciation
  split
  · exact pronunciation_score_of_bounds _ _
  · exact ⟨le_refl 0, by norm_num⟩

theorem wordRhythm_bounds (ts : List TimedWord) (mi : List Int)
    (ref : PhonemeData) (i : Nat) :
    0 ≤ wordRhythm ts mi ref i ∧ wordRhythm ts mi ref i ≤ 100 := by
  unfold wordRhythm
  split
  · dsimp only
    split
    · exact rhythm_score_of_bounds _ _
    · exact ⟨le_refl 0, by norm_num⟩
  · exact ⟨le_refl 0, by norm_num⟩

/-- Spec §8.6, record side: every `WordAccuracy` field lies in `[0, 100]`. -/
def waInRange (wa : WordAccuracyData) : Prop :=
  (0 ≤ wa.accuracy_percentage ∧ wa.accuracy_percentage ≤ 100) ∧
  (0 ≤ wa.pronunciation_score ∧ wa.pronunciation_score ≤ 100) ∧
  (0 ≤ wa.rhythm_score ∧ wa.rhythm_score ≤ 100)

/-- Spec §8.6, aggregate side: every `PronunciationScore` field lies in
`[0, 100]`. -/
def scoreInRange (s : PronunciationScore) : Prop :=
  (0 ≤ s.pronunciation ∧ s.pronunciation ≤ 100) ∧
  (0 ≤ s.fluency ∧ s.fluency ≤ 100) ∧
  (0 ≤ s.intonation ∧ s.intonation ≤ 100) ∧
  (0 ≤ s.stress ∧ s.stress ≤ 100) ∧
  (0 ≤ s.overall ∧ s.overall ≤ 100)

theorem wordAccuracyAt_inRange (ls : List PhonemeData) (ts : List TimedWord)
    (mi : List Int) (ref : PhonemeData) (i : Nat) :
    waInRange (wordAccuracyAt ls ts mi ref i) := by
  obtain ⟨hp0, hp1⟩ := wordPronunciation_bounds ls mi ref i
  obtain ⟨hr0, hr1⟩ := wordRhythm_bounds ts mi ref i
  exact ⟨round1_bounds (by linarith) (by linarith),
    round1_bounds hp0 hp1, round1_bounds hr0 hr1⟩

theorem sum_le_of_forall_le (l : List ℝ) (h : ∀ x ∈ l, 0 ≤ x ∧ x ≤ 100) :
    0 ≤ l.sum ∧ l.sum ≤ 100 * l.length := by
  induction l with
  | nil => norm_num
  | cons a tl ih =>
      obtain ⟨ha0, ha1⟩ := h a (List.mem_cons_self a tl)
      obtain ⟨h0, h1⟩ := ih fun x hx => h x (List.mem_cons_of_mem a hx)
      constructor
      · simpa using by linarith
      · simp only [List.sum_cons, List.length_cons]
        push_cast
        linarith

theorem mean_round1_range (l : List ℝ) (hne : l ≠ [])
    (h : ∀ x ∈ l, 0 ≤ x ∧ x ≤ 100) :
    0 ≤ round1 (l.sum / (l.length : ℝ)) ∧ round1 (l.sum / (l.length : ℝ)) ≤ 100 := by
  obtain ⟨h0, h1⟩ := sum_le_of_forall_le l h
  have hlen : (0 : ℝ) < (l.length : ℝ) := by
    have := List.length_pos.mpr hne
    exact_mod_cast this
  refine round1_bounds (div_nonneg h0 hlen.le) ?_
  rw [div_le_iff₀ hlen]
  linarith

theorem evaluate_fst_eq (dtwPath : List (List ℚ) → List (Nat × Nat))
    (werFn : String → String → ℝ) (refs ls : List PhonemeData) (ts : List TimedWord) :
    (evaluate_pronunciation_phonemes_aligned dtwPath werFn refs ls ts).1 =
      { pronunciation :=
          if (evaluate_pronunciation_phonemes_aligned dtwPath werFn refs ls ts).2.2.2.isEmpty
          then 0
          else round1
            (((evaluate_pronunciation_phonemes_aligned dtwPath werFn refs ls ts).2.2.2.map
                (·.pronunciation_score)).sum /
              ((evaluate_pronunciation_phonemes_aligned dtwPath werFn refs ls ts).2.2.2.length : ℝ))
        fluency := 0
        intonation := 0
        stress := 0
        overall :=
          if (evaluate_pronunciation_phonemes_aligned dtwPath werFn refs ls ts).2.2.2.isEmpty
          then 0
          else round1
            (((evaluate_pronunciation_phonemes_aligned dtwPath werFn refs ls ts).2.2.2.map
                (·.accuracy_percentage)).sum /
              ((evaluate_pronunciation_phonemes_aligned dtwPath werFn refs ls ts).2.2.2.length : ℝ)) } :=
  rfl

/-- C7 — Score bounds: for every input (and any DTW path and WER function),
every field of the `PronunciationScore` returned by
`evaluate_pronunciation_phonemes_aligned` and every numeric field of each
returned `WordAccuracyData` lies in `[0, 100]`. -/
theorem score_bounds (dtwPath : List (List ℚ) → List (Nat × Nat))
    (werFn : String → String → ℝ) (refs ls : List PhonemeData) (ts : List TimedWord) :
    scoreInRange (evaluate_pronunciation_phonemes_aligned dtwPath werFn refs ls ts).1 ∧
    (evaluate_pronunciation_phonemes_aligned dtwPath werFn refs ls ts).2.2.2.Forall waInRange := by
  have hwa : ∀ wa ∈ (evaluate_pronunciation_phonemes_aligned dtwPath werFn refs ls ts).2.2.2,
      waInRange wa := by
    rw [evaluate_word_accuracy_eq]
    intro wa hmem
    obtain ⟨i, -, rfl⟩ := List.mem_map.mp hmem
    exact wordAccuracyAt_inRange _ _ _ _ _
  refine ⟨?_, List.forall_iff_forall_mem.mpr hwa⟩
  rw [evaluate_fst_eq]
  unfold scoreInRange
  dsimp only
  by_cases hemp : (evaluate_pronunciation_phonemes_aligned dtwPath werFn refs ls ts).2.2.2.isEmpty
  · rw [if_pos hemp, if_pos hemp]
    norm_num
  · rw [if_neg hemp, if_neg hemp]
    have hne : (evaluate_pronunciation_phonemes_aligned dtwPath werFn refs ls ts).2.2.2 ≠ [] := by
      intro hnil
      rw [hnil] at hemp
      exact hemp rfl
    have hp := mean_round1_range
      ((evaluate_pronunciation_phonemes_aligned dtwPath werFn refs ls ts).2.2.2.map
        (·.pronunciation_score))
      (by simpa using hne)
      (by
        intro x hx
        obtain ⟨w, hw, rfl⟩ := List.mem_map.mp hx
        exact (hwa w hw).2.1)
    have ha := mean_round1_range
      ((evaluate_pronunciation_phonemes_aligned dtwPath werFn refs ls ts).2.2.2.map
        (·.accuracy_percentage))
      (by simpa using hne)
      (by
        intro x hx
        obtain ⟨w, hw, rfl⟩ := List.mem_map.mp hx
        exact (hwa w hw).1)
    simp only [List.length_map] at hp ha
    exact ⟨hp, by norm_num, by norm_num, by norm_num, ha⟩

theorem wordAccuracyAt_pron (ls : List PhonemeData) (ts : List TimedWord)
    (mi : List Int) (ref : PhonemeData) (i : Nat) :
    (wordAccuracyAt ls ts mi ref i).pronunciation_score =
      round1 (wordPronunciation ls mi ref i) := rfl

theorem wordAccuracyAt_rhythm (ls : List PhonemeData) (ts : List TimedWord)
    (mi : List Int) (ref : PhonemeData) (i : Nat) :
    (wordAccuracyAt ls ts mi ref i).rhythm_score = round1 (wordRhythm ts mi ref i) := rfl

theorem wordAccuracyAt_acc (ls : List PhonemeData) (ts : List TimedWord)
    (mi : List Int) (ref : PhonemeData) (i : Nat) :
    (wordAccuracyAt ls ts mi ref i).accuracy_percentage =
      round1 (wordPronunciation ls mi ref i * 0.7 + wordRhythm ts mi ref i * 0.3) := rfl

theorem mappedOk_of_getD (dtwPath : List (List ℚ) → List (Nat × Nat))
    (refs ls : List PhonemeData) (i : Nat) (hi : i < refs.length)
    (h : 0 ≤ (miOf dtwPath refs ls).getD i (-1)) : mappedOk (miOf dtwPath refs ls) i :=
  ⟨by rw [miOf_length]; exact hi, h⟩

theorem rhythm_score_of_none (r : String) (info : TimedWord)
    (h : info.startTime = none ∨ info.endTime = none) : rhythm_score_of r info = 0 := by
  obtain ⟨st, en⟩ := info
  cases st <;> cases en <;> simp [rhythm_score_of] at h ⊢

/-- C2 (amended) — Per-word pronunciation score formula with display rounding:
for a mapped reference word the stored `pronunciation_score` is the formula
`max(0, (len(refSeq) − editDistance(refSeq, candSeq)) / max(len(refSeq), 1)) × 100`
on the whitespace-stripped phoneme strings, rounded to one decimal place
(`round(·, 1)` at line 107); for an unmapped reference word it is `0`. -/
theorem pron_score_formula (dtwPath : List (List ℚ) → List (Nat × Nat))
    (werFn : String → String → ℝ) (refs ls : List PhonemeData) (ts : List TimedWord)
    (i : Nat) (hi : i < refs.length) :
    (0 ≤ (miOf dtwPath refs ls).getD i (-1) →
      ((evaluate_pronunciation_phonemes_aligned dtwPath werFn refs ls ts).2.2.2.getD i
          default).pronunciation_score =
        round1 (max 0
          ((((stripSpaces (refs.getD i default).phoneme).length : ℝ) -
              (edit_distance_python (stripSpaces (refs.getD i default).phoneme)
                (stripSpaces ((ls.getD ((miOf dtwPath refs ls).getD i (-1)).toNat
                  default).phoneme)) : ℝ)) /
            max ((stripSpaces (refs.getD i default).phoneme).length : ℝ) 1) * 100)) ∧
    ((miOf dtwPath refs ls).getD i (-1) < 0 →
      ((evaluate_pronunciation_phonemes_aligned dtwPath werFn refs ls ts).2.2.2.getD i
          default).pronunciation_score = 0) := by
  constructor
  · intro h
    rw [evaluate_word_accuracy_getD dtwPath werFn refs ls ts i hi, wordAccuracyAt_pron]
    unfold wordPronunciation
    rw [if_pos (mappedOk_of_getD dtwPath refs ls i hi h)]
    rfl
  · intro h
    rw [evaluate_word_accuracy_getD dtwPath werFn refs ls ts i hi, wordAccuracyAt_pron]
    unfold wordPronunciation
    rw [if_neg (fun hc => absurd hc.2 (not_le.mpr h))]
    exact round1_zero

/-- Counterexample to C2 as stated: the claim omits the one-decimal display
rounding, so the stored score `66.7` differs from the exact formula value
`200/3` for reference phonemes `"abc"` against candidate phonemes `"ab"`. -/
theorem pron_score_formula_counterexample :
    ((evaluate_pronunciation_phonemes_aligned (fun _ => [(0, 0), (9, 9)]) (fun _ _ => 0)
        [⟨"w", "abc"⟩] [⟨"w", "ab"⟩] []).2.2.2.getD 0 default).pronunciation_score =
      667 / 10 ∧
    pronunciation_score_of (stripSpaces "abc") (stripSpaces "ab") = 200 / 3 ∧
    (667 / 10 : ℝ) ≠ 200 / 3 := by
  have hps : pronunciation_score_of (stripSpaces "abc") (stripSpaces "ab") = 200 / 3 := by
    unfold pronunciation_score_of
    rw [show stripSpaces "abc" = "abc" from by decide,
      show stripSpaces "ab" = "ab" from by decide,
      show edit_distance_python "abc" "ab" = 1 from by decide,
      show ("abc" : String).length = 3 from rfl]
    rw [max_eq_left (by norm_num : (1 : ℝ) ≤ ((3 : Nat) : ℝ))]
    rw [max_eq_right
      (by norm_num : (0 : ℝ) ≤ (((3 : Nat) : ℝ) - ((1 : Nat) : ℝ)) / ((3 : Nat) : ℝ))]
    norm_num
  refine ⟨?_, hps, by norm_num⟩
  rw [evaluate_word_accuracy_getD _ _ _ _ _ 0 (by norm_num), wordAccuracyAt_pron]
  unfold wordPronunciation
  rw [if_pos (show mappedOk (miOf (fun _ => [(0, 0), (9, 9)]) [⟨"w", "abc"⟩] [⟨"w", "ab"⟩]) 0
    from by decide)]
  have hmain :
      pronunciation_score_of
        (stripSpaces (([⟨"w", "abc"⟩] : List PhonemeData).getD 0 default).phoneme)
        (stripSpaces ((([⟨"w", "ab"⟩] : List PhonemeData).getD
          ((miOf (fun _ => [(0, 0), (9, 9)]) [⟨"w", "abc"⟩] [⟨"w", "ab"⟩]).getD 0
            (-1)).toNat default).phoneme)) = 200 / 3 := by
    rw [show (miOf (fun _ => [(0, 0), (9, 9)]) [⟨"w", "abc"⟩] [⟨"w", "ab"⟩]) = [0]
      from by decide]
    exact hps
  rw [hmain]
  rw [round1_int (200 / 3) 667 (by norm_num) (by norm_num)]
  norm_num

/-- Witness for the amended C2 at the same concrete input. -/
theorem pron_score_formula_witness :
    ((evaluate_pronunciation_phonemes_aligned (fun _ => [(0, 0), (9, 9)]) (fun _ _ => 0)
        [⟨"w", "abc"⟩] [⟨"w", "ab"⟩] []).2.2.2.getD 0 default).pronunciation_score =
      round1 (max 0
        ((((stripSpaces (([⟨"w", "abc"⟩] : List PhonemeData).getD 0 default).phoneme).length : ℝ) -
            (edit_distance_python
              (stripSpaces (([⟨"w", "abc"⟩] : List PhonemeData).getD 0 default).phoneme)
              (stripSpaces ((([⟨"w", "ab"⟩] : List PhonemeData).getD
                ((miOf (fun _ => [(0, 0), (9, 9)]) [⟨"w", "abc"⟩] [⟨"w", "ab"⟩]).getD 0
                  (-1)).toNat default).phoneme)) : ℝ)) /
          max ((stripSpaces (([⟨"w", "abc"⟩] : List PhonemeData).getD 0 default).phoneme).length : ℝ)
            1) * 100) :=
  (pron_score_formula (fun _ => [(0, 0), (9, 9)]) (fun _ _ => 0)
    [⟨"w", "abc"⟩] [⟨"w", "ab"⟩] [] 0 (by norm_num)).1 (by decide)

/-- C3 (amended) — Fixed-weight combination including the zero: the stored
`accuracy_percentage` is always `round(0.7 × pronunciationScore +
0.3 × rhythmScore, 1)`; when a mapped candidate has no timestamp entry or its
entry lacks `'start'`/`'end'`, `rhythmScore = 0` and that zero is *included*
in the weighted combination (it is not excluded from the weighting). -/
theorem rhythm_weighting (dtwPath : List (List ℚ) → List (Nat × Nat))
    (werFn : String → String → ℝ) (refs ls : List PhonemeData) (ts : List TimedWord)
    (i : Nat) (hi : i < refs.length) :
    ((evaluate_pronunciation_phonemes_aligned dtwPath werFn refs ls ts).2.2.2.getD i
        default).accuracy_percentage =
      round1 (0.7 * wordPronunciation ls (miOf dtwPath refs ls) (refs.getD i default) i +
        0.3 * wordRhythm ts (miOf dtwPath refs ls) (refs.getD i default) i) ∧
    (0 ≤ (miOf dtwPath refs ls).getD i (-1) →
      (ts.length ≤ ((miOf dtwPath refs ls).getD i (-1)).toNat ∨
        (ts.getD ((miOf dtwPath refs ls).getD i (-1)).toNat default).startTime = none ∨
        (ts.getD ((miOf dtwPath refs ls).getD i (-1)).toNat default).endTime = none) →
      wordRhythm ts (miOf dtwPath refs ls) (refs.getD i default) i = 0) := by
  constructor
  · rw [evaluate_word_accuracy_getD dtwPath werFn refs ls ts i hi, wordAccuracyAt_acc]
    congr 1
    ring
  · intro h hcond
    unfold wordRhythm
    rw [if_pos (mappedOk_of_getD dtwPath refs ls i hi h)]
    dsimp only
    rcases hcond with hlen | hnone
    · rw [if_neg (not_lt.mpr hlen)]
    · by_cases hidx : ((miOf dtwPath refs ls).getD i (-1)).toNat < ts.length
      · rw [if_pos hidx]
        exact rhythm_score_of_none _ _ hnone
      · rw [if_neg hidx]

/-- Counterexample to C3 as stated: with a perfectly pronounced word
(`pronunciationScore = 100`) and no timestamps at all, the code stores
`combinedAccuracy = 0.7 × 100 + 0.3 × 0 = 70` — the zero rhythm score *is*
averaged in as a real measurement instead of being excluded (exclusion would
leave 100). -/
theorem rhythm_weighting_counterexample :
    ((evaluate_pronunciation_phonemes_aligned (fun _ => [(0, 0), (9, 9)]) (fun _ _ => 0)
        [⟨"w", "k"⟩] [⟨"w", "k"⟩] []).2.2.2.getD 0 default).pronunciation_score = 100 ∧
    ((evaluate_pronunciation_phonemes_aligned (fun _ => [(0, 0), (9, 9)]) (fun _ _ => 0)
        [⟨"w", "k"⟩] [⟨"w", "k"⟩] []).2.2.2.getD 0 default).rhythm_score = 0 ∧
    ((evaluate_pronunciation_phonemes_aligned (fun _ => [(0, 0), (9, 9)]) (fun _ _ => 0)
        [⟨"w", "k"⟩] [⟨"w", "k"⟩] []).2.2.2.getD 0 default).accuracy_percentage =
      0.7 * 100 + 0.3 * 0 ∧
    (0.7 * 100 + 0.3 * 0 : ℝ) ≠ 100 := by
  have hmi : miOf (fun _ => [(0, 0), (9, 9)]) [⟨"w", "k"⟩] [⟨"w", "k"⟩] = [0] := by decide
  have hpron : wordPronunciation [⟨"w", "k"⟩]
      (miOf (fun _ => [(0, 0), (9, 9)]) [⟨"w", "k"⟩] [⟨"w", "k"⟩])
      (([⟨"w", "k"⟩] : List PhonemeData).getD 0 default) 0 = 100 := by
    unfold wordPronunciation
    rw [if_pos (show mappedOk (miOf (fun _ => [(0, 0), (9, 9)]) [⟨"w", "k"⟩] [⟨"w", "k"⟩]) 0
      from by decide)]
    rw [hmi]
    show pronunciation_score_of (stripSpaces "k") (stripSpaces "k") = 100
    unfold pronunciation_score_of
    rw [show stripSpaces "k" = "k" from by decide,
      show edit_distance_python "k" "k" = 0 from by decide,
      show ("k" : String).length = 1 from rfl]
    rw [max_eq_left (by norm_num : (1 : ℝ) ≤ ((1 : Nat) : ℝ))]
    rw [max_eq_right
      (by norm_num : (0 : ℝ) ≤ (((1 : Nat) : ℝ) - ((0 : Nat) : ℝ)) / ((1 : Nat) : ℝ))]
    norm_num
  have hrh : wordRhythm []
      (miOf (fun _ => [(0, 0), (9, 9)]) [⟨"w", "k"⟩] [⟨"w", "k"⟩])
      (([⟨"w", "k"⟩] : List PhonemeData).getD 0 default) 0 = 0 := by
    unfold wordRhythm
    rw [if_pos (show mappedOk (miOf (fun _ => [(0, 0), (9, 9)]) [⟨"w", "k"⟩] [⟨"w", "k"⟩]) 0
      from by decide)]
    dsimp only
    rw [if_neg (by rw [hmi]; decide)]
  refine ⟨?_, ?_, ?_, by norm_num⟩
  · rw [evaluate_word_accuracy_getD _ _ _ _ _ 0 (by norm_num), wordAccuracyAt_pron, hpron,
      round1_hundred]
  · rw [evaluate_word_accuracy_getD _ _ _ _ _ 0 (by norm_num), wordAccuracyAt_rhythm, hrh,
      round1_zero]
  · rw [evaluate_word_accuracy_getD _ _ _ _ _ 0 (by norm_num), wordAccuracyAt_acc, hpron, hrh]
    rw [show (100 : ℝ) * 0.7 + 0 * 0.3 = 70 by norm_num]
    rw [round1_int 70 700 (by norm_num) (by norm_num)]
    norm_num

/-- Witness for the amended C3 at the same concrete input (word mapped,
timestamp list empty). -/
theorem rhythm_weighting_witness :
    ((evaluate_pronunciation_phonemes_aligned (fun _ => [(0, 0), (9, 9)]) (fun _ _ => 0)
        [⟨"w", "k"⟩] [⟨"w", "k"⟩] []).2.2.2.getD 0 default).accuracy_percentage =
      round1 (0.7 * wordPronunciation [⟨"w", "k"⟩]
          (miOf (fun _ => [(0, 0), (9, 9)]) [⟨"w", "k"⟩] [⟨"w", "k"⟩])
          (([⟨"w", "k"⟩] : List PhonemeData).getD 0 default) 0 +
        0.3 * wordRhythm []
          (miOf (fun _ => [(0, 0), (9, 9)]) [⟨"w", "k"⟩] [⟨"w", "k"⟩])
          (([⟨"w", "k"⟩] : List PhonemeData).getD 0 default) 0) ∧
    wordRhythm [] (miOf (fun _ => [(0, 0), (9, 9)]) [⟨"w", "k"⟩] [⟨"w", "k"⟩])
      (([⟨"w", "k"⟩] : List PhonemeData).getD 0 default) 0 = 0 :=
  ⟨(rhythm_weighting (fun _ => [(0, 0), (9, 9)]) (fun _ _ => 0)
      [⟨"w", "k"⟩] [⟨"w", "k"⟩] [] 0 (by norm_num)).1,
    (rhythm_weighting (fun _ => [(0, 0), (9, 9)]) (fun _ _ => 0)
      [⟨"w", "k"⟩] [⟨"w", "k"⟩] [] 0 (by norm_num)).2 (by decide) (Or.inl (by decide))⟩

/-! ### Alignment completeness: the matching blocks of `SequenceMatcher` form a
monotone chain, so the opcodes tile the reference side. -/

/-- Blocks form a monotone chain starting at position `(i, j)`: each block
starts at or after the end of the previous one on both axes. -/
def ChainedFrom : Nat → Nat → List (Nat × Nat × Nat) → Prop
  | _, _, [] => True
  | i, j, c :: rest => i ≤ c.1 ∧ j ≤ c.2.1 ∧ ChainedFrom (c.1 + c.2.2) (c.2.1 + c.2.2) rest

/-- Position reached on the `a` axis after consuming a block list. -/
def finalA : Nat → List (Nat × Nat × Nat) → Nat
  | i, [] => i
  | _, c :: rest => finalA (c.1 + c.2.2) rest

/-- Position reached on the `b` axis after consuming a block list. -/
def finalB : Nat → List (Nat × Nat × Nat) → Nat
  | j, [] => j
  | _, c :: rest => finalB (c.2.1 + c.2.2) rest

theorem chainedFrom_mono : ∀ {L : List (Nat × Nat × Nat)} {i j i' j' : Nat},
    ChainedFrom i j L → i' ≤ i → j' ≤ j → ChainedFrom i' j' L
  | [], _, _, _, _, _, _, _ => trivial
  | _ :: _, _, _, _, _, h, hi, hj => ⟨le_trans hi h.1, le_trans hj h.2.1, h.2.2⟩

theorem finalA_mono : ∀ (L : List (Nat × Nat × Nat)) {x y : Nat}, x ≤ y →
    finalA x L ≤ finalA y L
  | [], _, _, h => h
  | _ :: _, _, _, _ => le_refl _

theorem finalB_mono : ∀ (L : List (Nat × Nat × Nat)) {x y : Nat}, x ≤ y →
    finalB x L ≤ finalB y L
  | [], _, _, h => h
  | _ :: _, _, _, _ => le_refl _

theorem le_finalA : ∀ {L : List (Nat × Nat × Nat)} {i j : Nat},
    ChainedFrom i j L → i ≤ finalA i L
  | [], _, _, _ => le_refl _
  | c :: _, _, _, h =>
      le_trans (le_trans h.1 (Nat.le_add_right c.1 c.2.2)) (le_finalA h.2.2)

theorem le_finalB : ∀ {L : List (Nat × Nat × Nat)} {i j : Nat},
    ChainedFrom i j L → j ≤ finalB j L
  | [], _, _, _ => le_refl _
  | c :: _, _, _, h =>
      le_trans (le_trans h.2.1 (Nat.le_add_right c.2.1 c.2.2)) (le_finalB h.2.2)

theorem finalA_append : ∀ (L M : List (Nat × Nat × Nat)) (i : Nat),
    finalA i (L ++ M) = finalA (finalA i L) M
  | [], _, _ => rfl
  | _ :: L, M, _ => finalA_append L M _

theorem finalB_append : ∀ (L M : List (Nat × Nat × Nat)) (j : Nat),
    finalB j (L ++ M) = finalB (finalB j L) M
  | [], _, _ => rfl
  | _ :: L, M, _ => finalB_append L M _

theorem chainedFrom_append : ∀ {L M : List (Nat × Nat × Nat)} {i j : Nat},
    ChainedFrom i j L → ChainedFrom (finalA i L) (finalB j L) M → ChainedFrom i j (L ++ M)
  | [], _, _, _, _, hM => hM
  | _ :: _, _, _, _, hL, hM => ⟨hL.1, hL.2.1, chainedFrom_append hL.2.2 hM⟩

theorem commonPrefixLen_le_left : ∀ (xs ys : List String), commonPrefixLen xs ys ≤ xs.length
  | [], _ => by rw [commonPrefixLen]; exact Nat.zero_le _
  | _ :: _, [] => by rw [commonPrefixLen]; exact Nat.zero_le _
  | a :: as, b :: bs => by
      rw [commonPrefixLen]
      split
      · exact Nat.succ_le_succ (commonPrefixLen_le_left as bs)
      · exact Nat.zero_le _

theorem commonPrefixLen_le_right : ∀ (xs ys : List String), commonPrefixLen xs ys ≤ ys.length
  | [], _ => by rw [commonPrefixLen]; exact Nat.zero_le _
  | _ :: _, [] => by rw [commonPrefixLen]; exact Nat.zero_le _
  | a :: as, b :: bs => by
      rw [commonPrefixLen]
      split
      · exact Nat.succ_le_succ (commonPrefixLen_le_right as bs)
      · exact Nat.zero_le _

theorem matchSizeAt_add_le_left (a b : List String) (ahi bhi i j : Nat)
    (ha : ahi ≤ a.length) (hi : i ≤ ahi) : i + matchSizeAt a b ahi bhi i j ≤ ahi := by
  have h1 : matchSizeAt a b ahi bhi i j ≤ ((a.take ahi).drop i).length :=
    commonPrefixLen_le_left _ _
  simp only [List.length_drop, List.length_take] at h1
  omega

theorem matchSizeAt_add_le_right (a b : List String) (ahi bhi i j : Nat)
    (hb : bhi ≤ b.length) (hj : j ≤ bhi) : j + matchSizeAt a b ahi bhi i j ≤ bhi := by
  have h1 : matchSizeAt a b ahi bhi i j ≤ ((b.take bhi).drop j).length :=
    commonPrefixLen_le_right _ _
  simp only [List.length_drop, List.length_take] at h1
  omega

theorem foldl_invariant {α β : Type} (P : β → Prop) (f : β → α → β) :
    ∀ (l : List α) (st : β), P st → (∀ x ∈ l, ∀ y, P y → P (f y x)) → P (l.foldl f st)
  | [], _, hst, _ => hst
  | a :: tl, st, hst, hf =>
      foldl_invariant P f tl (f st a) (hf a (List.mem_cons_self a tl) st hst)
        (fun x hx y hy => hf x (List.mem_cons_of_mem a hx) y hy)

theorem findLongestMatch_bounds (a b : List String) (alo ahi blo bhi : Nat)
    (ha : ahi ≤ a.length) (hb : bhi ≤ b.length) (hal : alo ≤ ahi) (hbl : blo ≤ bhi) :
    alo ≤ (findLongestMatch a b alo ahi blo bhi).1 ∧
    blo ≤ (findLongestMatch a b alo ahi blo bhi).2.1 ∧
    (findLongestMatch a b alo ahi blo bhi).1 + (findLongestMatch a b alo ahi blo bhi).2.2 ≤ ahi ∧
    (findLongestMatch a b alo ahi blo bhi).2.1 + (findLongestMatch a b alo ahi blo bhi).2.2 ≤ bhi := by
  unfold findLongestMatch
  apply foldl_invariant
    (fun r : Nat × Nat × Nat => alo ≤ r.1 ∧ blo ≤ r.2.1 ∧ r.1 + r.2.2 ≤ ahi ∧ r.2.1 + r.2.2 ≤ bhi)
  · exact ⟨le_refl _, le_refl _, show alo + 0 ≤ ahi by omega, show blo + 0 ≤ bhi by omega⟩
  · intro p hp y hy
    rw [List.mem_flatMap] at hp
    obtain ⟨i, hi, hp2⟩ := hp
    rw [List.mem_map] at hp2
    obtain ⟨j, hj, rfl⟩ := hp2
    rw [List.mem_range'_1] at hi hj
    dsimp only
    split
    · refine ⟨hi.1, hj.1, ?_, ?_⟩
      · exact matchSizeAt_add_le_left a b ahi bhi i j ha (by omega)
      · exact matchSizeAt_add_le_right a b ahi bhi i j hb (by omega)
    · exact hy

theorem matchingBlocksAux_chain (a b : List String) :
    ∀ (fuel alo ahi blo bhi : Nat), ahi ≤ a.length → bhi ≤ b.length →
      alo ≤ ahi → blo ≤ bhi →
      ChainedFrom alo blo (matchingBlocksAux a b fuel alo ahi blo bhi) ∧
      finalA alo (matchingBlocksAux a b fuel alo ahi blo bhi) ≤ ahi ∧
      finalB blo (matchingBlocksAux a b fuel alo ahi blo bhi) ≤ bhi := by
  intro fuel
  induction fuel with
  | zero => intro alo ahi blo bhi _ _ hal hbl; exact ⟨trivial, hal, hbl⟩
  | succ fuel ih =>
      intro alo ahi blo bhi ha hb hal hbl
      obtain ⟨h1, h2, h3, h4⟩ := findLongestMatch_bounds a b alo ahi blo bhi ha hb hal hbl
      rcases h : findLongestMatch a b alo ahi blo bhi with ⟨i, j, k⟩
      rw [h] at h1 h2 h3 h4
      dsimp only at h1 h2 h3 h4
      by_cases hk : k = 0
      · rw [show matchingBlocksAux a b (fuel + 1) alo ahi blo bhi = [] from by
          simp only [matchingBlocksAux, h]
          rw [if_pos hk]]
        exact ⟨trivial, hal, hbl⟩
      · have hstep : matchingBlocksAux a b (fuel + 1) alo ahi blo bhi =
            matchingBlocksAux a b fuel alo i blo j ++
              (i, j, k) :: matchingBlocksAux a b fuel (i + k) ahi (j + k) bhi := by
          simp only [matchingBlocksAux, h]
          rw [if_neg hk]
        obtain ⟨hc1, hf1, hg1⟩ := ih alo i blo j (by omega) (by omega) h1 h2
        obtain ⟨hc2, hf2, hg2⟩ := ih (i + k) ahi (j + k) bhi ha hb h3 h4
        rw [hstep]
        refine ⟨chainedFrom_append hc1 ⟨hf1, hg1, hc2⟩, ?_, ?_⟩
        · rw [finalA_append]
          exact hf2
        · rw [finalB_append]
          exact hg2

theorem mergeAdjAux_chain : ∀ (L : List (Nat × Nat × Nat)) (c : Nat × Nat × Nat),
    ChainedFrom (c.1 + c.2.2) (c.2.1 + c.2.2) L →
    ChainedFrom c.1 c.2.1 (mergeAdjAux c L) ∧
    finalA c.1 (mergeAdjAux c L) ≤ finalA (c.1 + c.2.2) L ∧
    finalB c.2.1 (mergeAdjAux c L) ≤ finalB (c.2.1 + c.2.2) L := by
  intro L
  induction L with
  | nil =>
      intro c _
      by_cases hk : c.2.2 ≠ 0
      · rw [show mergeAdjAux c [] = [c] from by simp only [mergeAdjAux]; rw [if_pos hk]]
        exact ⟨⟨le_refl _, le_refl _, trivial⟩, le_refl _, le_refl _⟩
      · rw [show mergeAdjAux c [] = [] from by simp only [mergeAdjAux]; rw [if_neg hk]]
        exact ⟨trivial, Nat.le_add_right _ _, Nat.le_add_right _ _⟩
  | cons d rest ih =>
      intro c hch
      obtain ⟨hd1, hd2, hch'⟩ := hch
      by_cases hadj : c.1 + c.2.2 = d.1 ∧ c.2.1 + c.2.2 = d.2.1
      · have hstep : mergeAdjAux c (d :: rest) = mergeAdjAux (c.1, c.2.1, c.2.2 + d.2.2) rest := by
          simp only [mergeAdjAux]
          rw [if_pos hadj]
        have hch2 : ChainedFrom (c.1 + (c.2.2 + d.2.2)) (c.2.1 + (c.2.2 + d.2.2)) rest := by
          rw [show c.1 + (c.2.2 + d.2.2) = d.1 + d.2.2 by omega,
            show c.2.1 + (c.2.2 + d.2.2) = d.2.1 + d.2.2 by omega]
          exact hch'
        obtain ⟨ih1, ih2, ih3⟩ := ih (c.1, c.2.1, c.2.2 + d.2.2) hch2
        rw [hstep]
        refine ⟨ih1, ?_, ?_⟩
        · calc finalA c.1 (mergeAdjAux (c.1, c.2.1, c.2.2 + d.2.2) rest)
              ≤ finalA (c.1 + (c.2.2 + d.2.2)) rest := ih2
            _ = finalA (d.1 + d.2.2) rest := by
                rw [show c.1 + (c.2.2 + d.2.2) = d.1 + d.2.2 by omega]
            _ = finalA (c.1 + c.2.2) (d :: rest) := rfl
        · calc finalB c.2.1 (mergeAdjAux (c.1, c.2.1, c.2.2 + d.2.2) rest)
              ≤ finalB (c.2.1 + (c.2.2 + d.2.2)) rest := ih3
            _ = finalB (d.2.1 + d.2.2) rest := by
                rw [show c.2.1 + (c.2.2 + d.2.2) = d.2.1 + d.2.2 by omega]
            _ = finalB (c.2.1 + c.2.2) (d :: rest) := rfl
      · have hstep : mergeAdjAux c (d :: rest) =
            (if c.2.2 ≠ 0 then [c] else []) ++ mergeAdjAux d rest := by
          simp only [mergeAdjAux]
          rw [if_neg hadj]
        obtain ⟨ih1, ih2, ih3⟩ := ih d hch'
        rw [hstep]
        by_cases hk : c.2.2 ≠ 0
        · rw [if_pos hk]
          refine ⟨⟨le_refl _, le_refl _, chainedFrom_mono ih1 hd1 hd2⟩, ?_, ?_⟩
          · calc finalA c.1 ([c] ++ mergeAdjAux d rest)
                = finalA (c.1 + c.2.2) (mergeAdjAux d rest) := rfl
              _ ≤ finalA d.1 (mergeAdjAux d rest) := finalA_mono _ hd1
              _ ≤ finalA (d.1 + d.2.2) rest := ih2
              _ = finalA (c.1 + c.2.2) (d :: rest) := rfl
          · calc finalB c.2.1 ([c] ++ mergeAdjAux d rest)
                = finalB (c.2.1 + c.2.2) (mergeAdjAux d rest) := rfl
              _ ≤ finalB d.2.1 (mergeAdjAux d rest) := finalB_mono _ hd2
              _ ≤ finalB (d.2.1 + d.2.2) rest := ih3
              _ = finalB (c.2.1 + c.2.2) (d :: rest) := rfl
        · rw [if_neg hk]
          have hk0 : c.2.2 = 0 := by omega
          refine ⟨chainedFrom_mono ih1 (by omega) (by omega), ?_, ?_⟩
          · calc finalA c.1 ([] ++ mergeAdjAux d rest)
                = finalA c.1 (mergeAdjAux d rest) := rfl
              _ ≤ finalA d.1 (mergeAdjAux d rest) := finalA_mono _ (by omega)
              _ ≤ finalA (d.1 + d.2.2) rest := ih2
              _ = finalA (c.1 + c.2.2) (d :: rest) := rfl
          · calc finalB c.2.1 ([] ++ mergeAdjAux d rest)
                = finalB c.2.1 (mergeAdjAux d rest) := rfl
              _ ≤ finalB d.2.1 (mergeAdjAux d rest) := finalB_mono _ (by omega)
              _ ≤ finalB (d.2.1 + d.2.2) rest := ih3
              _ = finalB (c.2.1 + c.2.2) (d :: rest) := rfl

theorem get_matching_blocks_chain (a b : List String) :
    ChainedFrom 0 0 (get_matching_blocks a b) ∧
    finalA 0 (get_matching_blocks a b) = a.length ∧
    finalB 0 (get_matching_blocks a b) = b.length := by
  obtain ⟨hc, hf, hg⟩ := matchingBlocksAux_chain a b (a.length + b.length + 1)
    0 a.length 0 b.length (le_refl _) (le_refl _) (Nat.zero_le _) (Nat.zero_le _)
  obtain ⟨mc, mf, mg⟩ := mergeAdjAux_chain
    (matchingBlocksAux a b (a.length + b.length + 1) 0 a.length 0 b.length) (0, 0, 0) hc
  unfold get_matching_blocks
  refine ⟨chainedFrom_append mc ⟨le_trans mf hf, le_trans mg hg, trivial⟩, ?_, ?_⟩
  · rw [finalA_append]
    rfl
  · rw [finalB_append]
    rfl

/-- Number of alignment entries whose `ref` slot is non-null (the
non-insertion entries). -/
def refCount (l : List AlignmentItem) : Nat := (l.filter fun it => it.ref.isSome).length

theorem refCount_append (x y : List AlignmentItem) :
    refCount (x ++ y) = refCount x + refCount y := by
  simp [refCount, List.filter_append]

theorem refCount_map_eq_countP {α : Type} (f : α → AlignmentItem) (L : List α) :
    refCount (L.map f) = L.countP fun x => (f x).ref.isSome := by
  rw [refCount, List.filter_map, List.length_map, List.countP_eq_length_filter]
  rfl

theorem range_countP_isSome {α : Type} (l : List α) (n : Nat) :
    (List.range n).countP (fun idx => l[idx]?.isSome) = min n l.length := by
  induction n with
  | zero => simp
  | succ n ih =>
      rw [List.range_succ, List.countP_append, ih]
      by_cases hn : n < l.length
      · simp [List.countP_cons, List.getElem?_eq_getElem hn]
        omega
      · simp [List.countP_cons, List.getElem?_eq_none (le_of_not_lt hn)]
        omega

theorem refCount_alignOfOpcode_replace (dtwPath : List (List ℚ) → List (Nat × Nat))
    (rs ls : List String) (i1 i2 j1 j2 : Nat) (h2 : i2 ≤ rs.length) (h1 : i1 ≤ i2) :
    refCount (alignOfOpcode dtwPath rs ls (OpTag.replace, i1, i2, j1, j2)) = i2 - i1 := by
  show refCount
    ((List.range (max ((rs.drop i1).take (i2 - i1)).length ((ls.drop j1).take (j2 - j1)).length)).map
      fun idx => build_alignment_item dtwPath ((rs.drop i1).take (i2 - i1))[idx]?
        ((ls.drop j1).take (j2 - j1))[idx]?
        (((rs.drop i1).take (i2 - i1))[idx]? == ((ls.drop j1).take (j2 - j1))[idx]?)) = i2 - i1
  rw [refCount_map_eq_countP]
  have hpred : (fun idx =>
      ((build_alignment_item dtwPath ((rs.drop i1).take (i2 - i1))[idx]?
        ((ls.drop j1).take (j2 - j1))[idx]?
        (((rs.drop i1).take (i2 - i1))[idx]? == ((ls.drop j1).take (j2 - j1))[idx]?)).ref).isSome) =
      fun idx : Nat => (((rs.drop i1).take (i2 - i1))[idx]?).isSome := rfl
  rw [hpred, range_countP_isSome, min_eq_right (le_max_left _ _)]
  simp [List.length_take, List.length_drop]
  omega

theorem refCount_alignOfOpcode_delete (dtwPath : List (List ℚ) → List (Nat × Nat))
    (rs ls : List String) (i1 i2 j1 j2 : Nat) :
    refCount (alignOfOpcode dtwPath rs ls (OpTag.delete, i1, i2, j1, j2)) = i2 - i1 := by
  show refCount ((List.range (i2 - i1)).map fun k =>
    build_alignment_item dtwPath (some (rs.getD (i1 + k) "")) none false) = i2 - i1
  rw [refCount_map_eq_countP]
  have hall : ∀ a ∈ List.range (i2 - i1),
      ((build_alignment_item dtwPath (some (rs.getD (i1 + a) "")) none false).ref).isSome :=
    fun a _ => rfl
  rw [List.countP_eq_length.mpr hall, List.length_range]

theorem refCount_alignOfOpcode_insert (dtwPath : List (List ℚ) → List (Nat × Nat))
    (rs ls : List String) (i1 i2 j1 j2 : Nat) :
    refCount (alignOfOpcode dtwPath rs ls (OpTag.insert, i1, i2, j1, j2)) = 0 := by
  show refCount ((List.range (j2 - j1)).map fun k =>
    build_alignment_item dtwPath none (some (ls.getD (j1 + k) "")) false) = 0
  rw [refCount_map_eq_countP]
  have hall : ∀ a ∈ List.range (j2 - j1),
      ¬ ((build_alignment_item dtwPath none (some (ls.getD (j1 + a) "")) false).ref).isSome :=
    fun a _ h => nomatch h
  rw [List.countP_eq_zero.mpr hall]

theorem refCount_alignOfOpcode_equal (dtwPath : List (List ℚ) → List (Nat × Nat))
    (rs ls : List String) (i1 i2 j1 j2 : Nat) :
    refCount (alignOfOpcode dtwPath rs ls (OpTag.equal, i1, i2, j1, j2)) = i2 - i1 := by
  show refCount ((List.range (i2 - i1)).map fun k =>
    build_alignment_item dtwPath (some (rs.getD (i1 + k) "")) (some (ls.getD (j1 + k) "")) true) =
      i2 - i1
  rw [refCount_map_eq_countP]
  have hall : ∀ a ∈ List.range (i2 - i1),
      ((build_alignment_item dtwPath (some (rs.getD (i1 + a) ""))
        (some (ls.getD (j1 + a) "")) true).ref).isSome :=
    fun a _ => rfl
  rw [List.countP_eq_length.mpr hall, List.length_range]

theorem opcodeWalk_refCount (dtwPath : List (List ℚ) → List (Nat × Nat)) (rs ls : List String) :
    ∀ (L : List (Nat × Nat × Nat)) (i j : Nat), ChainedFrom i j L →
      finalA i L ≤ rs.length →
      refCount ((opcodeWalk i j L).flatMap (alignOfOpcode dtwPath rs ls)) + i = finalA i L := by
  intro L
  induction L with
  | nil =>
      intro i j _ _
      simp [opcodeWalk, refCount, finalA]
  | cons c rest ih =>
      intro i j hch hle
      obtain ⟨h1, h2, hch'⟩ := hch
      have hfin : finalA i (c :: rest) = finalA (c.1 + c.2.2) rest := rfl
      have hcle : c.1 + c.2.2 ≤ finalA (c.1 + c.2.2) rest := le_finalA hch'
      have hrs : c.1 + c.2.2 ≤ rs.length := by rw [hfin] at hle; omega
      rw [show opcodeWalk i j (c :: rest) =
          ((if i < c.1 ∧ j < c.2.1 then [(OpTag.replace, i, c.1, j, c.2.1)]
            else if i < c.1 then [(OpTag.delete, i, c.1, j, c.2.1)]
            else if j < c.2.1 then [(OpTag.insert, i, c.1, j, c.2.1)]
            else []) ++
          (if c.2.2 ≠ 0 then [(OpTag.equal, c.1, c.1 + c.2.2, c.2.1, c.2.1 + c.2.2)] else []) ++
          opcodeWalk (c.1 + c.2.2) (c.2.1 + c.2.2) rest) from by simp only [opcodeWalk]]
      rw [List.flatMap_append, List.flatMap_append, refCount_append, refCount_append]
      have hrest := ih (c.1 + c.2.2) (c.2.1 + c.2.2) hch' (by rw [hfin] at hle; exact hle)
      have hgap : refCount
          ((if i < c.1 ∧ j < c.2.1 then [(OpTag.replace, i, c.1, j, c.2.1)]
            else if i < c.1 then [(OpTag.delete, i, c.1, j, c.2.1)]
            else if j < c.2.1 then [(OpTag.insert, i, c.1, j, c.2.1)]
            else []).flatMap (alignOfOpcode dtwPath rs ls)) = c.1 - i := by
        split_ifs with hrep hdel hins
        · simp only [List.flatMap_cons, List.flatMap_nil, List.append_nil]
          exact refCount_alignOfOpcode_replace dtwPath rs ls i c.1 j c.2.1 (by omega) h1
        · simp only [List.flatMap_cons, List.flatMap_nil, List.append_nil]
          exact refCount_alignOfOpcode_delete dtwPath rs ls i c.1 j c.2.1
        · simp only [List.flatMap_cons, List.flatMap_nil, List.append_nil]
          rw [refCount_alignOfOpcode_insert dtwPath rs ls i c.1 j c.2.1]
          omega
        · show refCount [] = c.1 - i
          rw [show refCount [] = 0 from rfl]
          omega
      have heqop : refCount
          ((if c.2.2 ≠ 0 then [(OpTag.equal, c.1, c.1 + c.2.2, c.2.1, c.2.1 + c.2.2)]
            else []).flatMap (alignOfOpcode dtwPath rs ls)) = c.2.2 := by
        split_ifs with hk
        · simp only [List.flatMap_cons, List.flatMap_nil, List.append_nil]
          rw [refCount_alignOfOpcode_equal dtwPath rs ls c.1 (c.1 + c.2.2) c.2.1 (c.2.1 + c.2.2)]
          omega
        · show refCount [] = c.2.2
          rw [show refCount [] = 0 from rfl]
          omega
      rw [hgap, heqop, hfin]
      omega

theorem alignOfOpcode_entries (dtwPath : List (List ℚ) → List (Nat × Nat))
    (rs ls : List String) (op : OpTag × Nat × Nat × Nat × Nat) :
    ∀ it ∈ alignOfOpcode dtwPath rs ls op, it.ref.isSome ∨ it.learner.isSome := by
  intro it hmem
  obtain ⟨tag, i1, i2, j1, j2⟩ := op
  cases tag with
  | equal =>
      simp only [alignOfOpcode] at hmem
      rw [List.mem_map] at hmem
      obtain ⟨k, -, rfl⟩ := hmem
      exact Or.inl rfl
  | replace =>
      simp only [alignOfOpcode] at hmem
      rw [List.mem_map] at hmem
      obtain ⟨k, hk, rfl⟩ := hmem
      rw [List.mem_range] at hk
      by_cases hkr : k < ((rs.drop i1).take (i2 - i1)).length
      · left
        show (((rs.drop i1).take (i2 - i1))[k]?).isSome
        rw [List.getElem?_eq_getElem hkr]
        rfl
      · right
        have hkl : k < ((ls.drop j1).take (j2 - j1)).length := by omega
        show (((ls.drop j1).take (j2 - j1))[k]?).isSome
        rw [List.getElem?_eq_getElem hkl]
        rfl
  | delete =>
      simp only [alignOfOpcode] at hmem
      rw [List.mem_map] at hmem
      obtain ⟨k, -, rfl⟩ := hmem
      exact Or.inl rfl
  | insert =>
      simp only [alignOfOpcode] at hmem
      rw [List.mem_map] at hmem
      obtain ⟨k, -, rfl⟩ := hmem
      exact Or.inr rfl

/-- C6 — Alignment completeness: for every reference sequence `R` and candidate
sequence `C` (and any DTW path), the alignment returned by
`_align_sequences_dtw_patched` contains exactly `len(R)` entries whose `ref`
field is non-null; moreover no entry has both fields null, so each null-`ref`
entry carries a candidate token (an insertion) and each null-candidate entry
carries a reference token (a deletion). -/
theorem alignment_completeness (dtwPath : List (List ℚ) → List (Nat × Nat))
    (ref_seq learner_seq : List String) :
    refCount (align_sequences_dtw_patched dtwPath ref_seq learner_seq) = ref_seq.length ∧
    (align_sequences_dtw_patched dtwPath ref_seq learner_seq).Forall
      (fun it => it.ref.isSome ∨ it.learner.isSome) := by
  rcases ref_seq with - | ⟨r, rs'⟩
  · rcases learner_seq with - | ⟨l, ls'⟩
    · exact ⟨rfl, trivial⟩
    · constructor
      · show refCount ((l :: ls').map fun x =>
          build_alignment_item dtwPath none (some x) false) = 0
        rw [refCount_map_eq_countP]
        have hall : ∀ a ∈ l :: ls',
            ¬ ((build_alignment_item dtwPath none (some a) false).ref).isSome :=
          fun a _ h => by simp [build_alignment_item] at h
        rw [List.countP_eq_zero.mpr hall]
      · rw [List.forall_iff_forall_mem]
        intro it hmem
        replace hmem : it ∈ (l :: ls').map
            (fun x => build_alignment_item dtwPath none (some x) false) := hmem
        rw [List.mem_map] at hmem
        obtain ⟨x, -, rfl⟩ := hmem
        exact Or.inr rfl
  · rcases learner_seq with - | ⟨l, ls'⟩
    · constructor
      · show refCount ((r :: rs').map fun x =>
          build_alignment_item dtwPath (some x) none false) = (r :: rs').length
        rw [refCount_map_eq_countP]
        have hall : ∀ a ∈ r :: rs',
            ((build_alignment_item dtwPath (some a) none false).ref).isSome :=
          fun a _ => rfl
        rw [List.countP_eq_length.mpr hall]
      · rw [List.forall_iff_forall_mem]
        intro it hmem
        replace hmem : it ∈ (r :: rs').map
            (fun x => build_alignment_item dtwPath (some x) none false) := hmem
        rw [List.mem_map] at hmem
        obtain ⟨x, -, rfl⟩ := hmem
        exact Or.inl rfl
    · have hmain : align_sequences_dtw_patched dtwPath (r :: rs') (l :: ls') =
          (get_opcodes (r :: rs') (l :: ls')).flatMap
            (alignOfOpcode dtwPath (r :: rs') (l :: ls')) := rfl
      obtain ⟨hc, hfa, -⟩ := get_matching_blocks_chain (r :: rs') (l :: ls')
      constructor
      · rw [hmain]
        have hcount := opcodeWalk_refCount dtwPath (r :: rs') (l :: ls')
          (get_matching_blocks (r :: rs') (l :: ls')) 0 0 hc (le_of_eq hfa)
        rw [hfa] at hcount
        simpa [get_opcodes] using hcount
      · rw [hmain, List.forall_iff_forall_mem]
        intro it hmem
        rw [List.mem_flatMap] at hmem
        obtain ⟨op, -, hit⟩ := hmem
        exact alignOfOpcode_entries dtwPath (r :: rs') (l :: ls') op it hit

/-- C4 — The broken-match downgrade never reaches the output: at
`ref_seq = ["abc"]`, `learner_seq = ["xyz"]` the normalized distance is `1`,
well above the `0.6` threshold, yet `_align_sequences_dtw_patched` returns the
two dissimilar tokens as a single forced pairing (one entry with both fields
set) instead of a deletion entry plus an insertion entry: the thresholded
`good_alignments` list of lines 177–191 is computed and then discarded, and the
returned alignment is built purely from `SequenceMatcher` opcodes, whose
`replace` branch pairs the tokens positionally. -/
theorem broken_match_not_downgraded :
    align_sequences_dtw_patched (fun _ => []) ["abc"] ["xyz"] =
      [{ ref := some "abc", learner := some "xyz", is_match := false, sub_alignment := [] }] ∧
    THRESHOLD < ((normalized_distance_matrix ["xyz"] ["abc"]).getD 0 []).getD 0 0 := by
  constructor
  · decide
  · simp only [normalized_distance_matrix, List.map_cons, List.map_nil, List.getD_cons_zero]
    rw [show edit_distance_python "xyz" "abc" = 3 from by decide,
      show ("xyz" : String).length = 3 from rfl, show ("abc" : String).length = 3 from rfl]
    norm_num [THRESHOLD]

/-- C5 — Transcription failure is not terminal: the repository's whisper
service signals failure by returning the *empty string* (with confidence 0),
but the orchestrator's only hard-failure check is `transcribed_text is None`
(line 310).  Fed an empty transcription, `process_phonetic_evaluation`
proceeds and returns a complete scored response (score object present, one
zero-scored entry per reference word) instead of a hard failure; only a `None`
text — which the whisper service never produces — reaches the error branch. -/
theorem transcription_failure_not_terminal :
    ((process_phonetic_evaluation (fun _ => []) (fun _ _ => 0) (fun ws => ws)
        (fun _ _ _ _ _ => Except.ok "fb") "hello" (some "", 4 / 5, [])).toOption.map
      fun resp => (resp.transcribed_text, resp.scores.overall, resp.scores.pronunciation,
        resp.word_accuracy.length)) = some ("", 0, 0, 1) ∧
    (process_phonetic_evaluation (fun _ => []) (fun _ _ => 0) (fun ws => ws)
        (fun _ _ _ _ _ => Except.ok "fb") "hello" (none, 4 / 5, [])).toOption = none := by
  have hmi : miOf (fun _ => ([] : List (Nat × Nat))) [⟨"hello", "hello"⟩] [] = [-1] := by
    decide
  have hp0 : wordPronunciation [] (miOf (fun _ => []) [⟨"hello", "hello"⟩] [])
      (⟨"hello", "hello"⟩ : PhonemeData) 0 = 0 := by
    unfold wordPronunciation
    rw [if_neg (by rw [hmi]; decide)]
  have hr0 : wordRhythm [] (miOf (fun _ => []) [⟨"hello", "hello"⟩] [])
      (⟨"hello", "hello"⟩ : PhonemeData) 0 = 0 := by
    unfold wordRhythm
    rw [if_neg (by rw [hmi]; decide)]
  have hitem_acc : (wordAccuracyAt [] [] (miOf (fun _ => []) [⟨"hello", "hello"⟩] [])
      (⟨"hello", "hello"⟩ : PhonemeData) 0).accuracy_percentage = 0 := by
    rw [wordAccuracyAt_acc, hp0, hr0, show (0 : ℝ) * 0.7 + 0 * 0.3 = 0 by norm_num, round1_zero]
  have hitem_pron : (wordAccuracyAt [] [] (miOf (fun _ => []) [⟨"hello", "hello"⟩] [])
      (⟨"hello", "hello"⟩ : PhonemeData) 0).pronunciation_score = 0 := by
    rw [wordAccuracyAt_pron, hp0, round1_zero]
  have hov : (evaluate_pronunciation_phonemes_aligned (fun _ => []) (fun _ _ => 0)
      [⟨"hello", "hello"⟩] [] []).1.overall = 0 := by
    rw [evaluate_fst_eq]
    dsimp only
    rw [evaluate_word_accuracy_eq]
    rw [show List.range ([(⟨"hello", "hello"⟩ : PhonemeData)].length) = [0] from rfl]
    simp [hitem_acc, round1_zero]
  have hpr : (evaluate_pronunciation_phonemes_aligned (fun _ => []) (fun _ _ => 0)
      [⟨"hello", "hello"⟩] [] []).1.pronunciation = 0 := by
    rw [evaluate_fst_eq]
    dsimp only
    rw [evaluate_word_accuracy_eq]
    rw [show List.range ([(⟨"hello", "hello"⟩ : PhonemeData)].length) = [0] from rfl]
    simp [hitem_pron, round1_zero]
  have hlen : (evaluate_pronunciation_phonemes_aligned (fun _ => []) (fun _ _ => 0)
      [⟨"hello", "hello"⟩] [] []).2.2.2.length = 1 := by
    rw [evaluate_word_accuracy_eq]
    simp
  constructor
  · simp only [process_phonetic_evaluation]
    rw [show pySplit "hello" = ["hello"] from by decide,
      show pySplit "" = [] from by decide]
    simp only [List.zipWith_cons_cons, List.zipWith_nil_right, List.zipWith_nil_left]
    rw [show pyStrip "hello" = "hello" from by decide]
    simp only [Except.toOption, Option.map_some]
    simp [hov, hpr, hlen]
  · rfl

end AIEnglish
